import Mathlib

/-!
# Intro Skipper end-to-end verifier: report comparison and schema validation

A shallow embedding of the Go sources under
`ConfusedPolarBear.Plugin.IntroSkipper.Tests/e2e_tests/verifier`:

* `structs/intro.go`, `structs/report.go`: the record and collection types,
* `report_comparison_util.go`: `templateSortShows`, `templateSortSeason`,
  `templateCompareEpisodes`,
* `report_comparison.go`: the indexing loop of `unmarshalReport`,
* `schema_validation.go`: `validateV1Intro`,
* `report_generator.go`: the duration loop of `generateReport`,

and of `redactString` in `e2e_tests/wrapper/exec.go`.

Go's `float32` and `float64` are embedded as IEEE-754 binary values with exact
integer arithmetic on mantissa and exponent and round-to-nearest-even, so that
every comparison the source makes is evaluated the way the machine evaluates it.
Go maps are embedded as association lists with distinct keys; the order of the
list stands for the order in which a `range` loop visits the entries, which Go
leaves unspecified.
-/

namespace IntroSkipper

/-! ## IEEE-754 binary floating point -/

/-- An IEEE-754 binary interchange format: `prec` is the precision in bits (hidden bit
included) and `emax` the largest exponent of a normal number. -/
structure FloatFormat where
  prec : Nat
  emax : Int
  deriving DecidableEq, Repr

/-- Go `float32`. -/
def binary32 : FloatFormat := ⟨24, 127⟩

/-- Go `float64`. -/
def binary64 : FloatFormat := ⟨53, 1023⟩

/-- Smallest exponent of a normal number. -/
def FloatFormat.emin (f : FloatFormat) : Int := 1 - f.emax

/-- A floating-point datum: the finite value `(-1)^neg * m * 2^e` (so both zeros exist),
an infinity, or NaN. -/
inductive Fp where
  | fin (neg : Bool) (m : Nat) (e : Int)
  | inf (neg : Bool)
  | nan
  deriving DecidableEq, Repr, Inhabited

/-- Positive zero, the zero value of a Go float. -/
def Fp.zero : Fp := .fin false 0 0

/-- Auxiliary of `bitLength`: counts the binary digits of `n`, `fuel` bounding the
number of halvings. -/
def bitLengthAux : Nat → Nat → Nat
  | 0, _ => 0
  | fuel + 1, n => if n = 0 then 0 else bitLengthAux fuel (n / 2) + 1

/-- Number of binary digits of `n` (`0` for `0`): the position of the leading bit plus
one. -/
def bitLength (n : Nat) : Nat := bitLengthAux n n

/-- Exponent of the last mantissa bit that format `f` keeps for the magnitude `m * 2^e`
(`m > 0`): `prec` bits below the leading bit, but never below the subnormal spacing. -/
def FloatFormat.quantum (f : FloatFormat) (m : Nat) (e : Int) : Int :=
  max (e + (bitLength m : Int) - (f.prec : Int)) (f.emin - (f.prec : Int) + 1)

/-- Drops the low `shift` bits of `m`, rounding to nearest with ties to even. -/
def roundNearestEven (m shift : Nat) : Nat :=
  let q := m / 2 ^ shift
  let r := m % 2 ^ shift
  if 2 ^ shift < 2 * r ∨ (2 * r = 2 ^ shift ∧ q % 2 = 1) then q + 1 else q

/-- Rounds a datum to format `f` (round to nearest, ties to even, overflow to infinity).
The result of a finite input is in canonical form: mantissa below `2^prec` at the quantum
exponent, zero as `m = 0, e = 0`. -/
def Fp.round (f : FloatFormat) : Fp → Fp
  | .fin s m e =>
    if m = 0 then .fin s 0 0
    else
      let q := f.quantum m e
      let n := if q ≤ e then m * 2 ^ (e - q).toNat else roundNearestEven m (q - e).toNat
      if n = 0 then .fin s 0 0
      else if f.emax + 1 < (bitLength n : Int) + q then .inf s
      else if n = 2 ^ f.prec then .fin s (2 ^ (f.prec - 1)) (q + 1)
      else .fin s n q
  | x => x

/-- Conversion of an integer (a Go constant or `int`) to format `f`. -/
def Fp.ofInt (f : FloatFormat) (n : Int) : Fp :=
  Fp.round f (.fin (decide (n < 0)) n.natAbs 0)

/-- The two finite values `(-1)^s1 * m1 * 2^e1` and `(-1)^s2 * m2 * 2^e2` as integers
over the common unit `2^(min e1 e2)`. -/
def alignInts (s1 : Bool) (m1 : Nat) (e1 : Int) (s2 : Bool) (m2 : Nat) (e2 : Int) : Int × Int :=
  let e := min e1 e2
  let a : Int := (m1 : Int) * 2 ^ (e1 - e).toNat
  let b : Int := (m2 : Int) * 2 ^ (e2 - e).toNat
  (if s1 then -a else a, if s2 then -b else b)

/-- Go `x < y` on floats: false when either side is NaN, and `-0 < +0` is false. -/
def Fp.lt : Fp → Fp → Bool
  | .nan, _ => false
  | _, .nan => false
  | .inf s, .inf t => s && !t
  | .inf s, .fin _ _ _ => s
  | .fin _ _ _, .inf t => !t
  | .fin s1 m1 e1, .fin s2 m2 e2 =>
    let p := alignInts s1 m1 e1 s2 m2 e2
    decide (p.1 < p.2)

/-- Go `x <= y` on floats: false when either side is NaN. -/
def Fp.le : Fp → Fp → Bool
  | .nan, _ => false
  | _, .nan => false
  | .inf s, .inf t => s || !t
  | .inf s, .fin _ _ _ => s
  | .fin _ _ _, .inf t => !t
  | .fin s1 m1 e1, .fin s2 m2 e2 =>
    let p := alignInts s1 m1 e1 s2 m2 e2
    decide (p.1 ≤ p.2)

/-- Go `x > y` on floats. -/
def Fp.gt (x y : Fp) : Bool := Fp.lt y x

/-- Go `x >= y` on floats. -/
def Fp.ge (x y : Fp) : Bool := Fp.le y x

/-- Go `x == y` on floats: false when either side is NaN, and `-0 == +0`. -/
def Fp.eq : Fp → Fp → Bool
  | .nan, _ => false
  | _, .nan => false
  | .inf s, .inf t => s == t
  | .inf _, .fin _ _ _ => false
  | .fin _ _ _, .inf _ => false
  | .fin s1 m1 e1, .fin s2 m2 e2 =>
    let p := alignInts s1 m1 e1 s2 m2 e2
    decide (p.1 = p.2)

/-- Go `x - y` in format `f`: the exact difference, rounded. An exact zero difference is
`+0` unless it is `(-0) - (+0)`. -/
def Fp.sub (f : FloatFormat) : Fp → Fp → Fp
  | .nan, _ => .nan
  | _, .nan => .nan
  | .inf s, .inf t => if s = t then .nan else .inf s
  | .inf s, .fin _ _ _ => .inf s
  | .fin _ _ _, .inf t => .inf (!t)
  | .fin s1 m1 e1, .fin s2 m2 e2 =>
    let p := alignInts s1 m1 e1 s2 m2 e2
    let d := p.1 - p.2
    if d = 0 then .fin (decide (m1 = 0 ∧ m2 = 0) && s1 && !s2) 0 0
    else Fp.round f (.fin (decide (d < 0)) d.natAbs (min e1 e2))

/-- Go `math.Abs`: clears the sign. -/
def Fp.abs : Fp → Fp
  | .fin _ m e => .fin false m e
  | .inf _ => .inf false
  | .nan => .nan

/-- Go `math.Round` on a `float64`: nearest integer, halves away from zero; infinities,
NaN and zeros are returned as they are. -/
def Fp.mathRound : Fp → Fp
  | .fin s m e =>
    if 0 ≤ e then Fp.round binary64 (.fin s m e)
    else
      let k := (-e).toNat
      let q := m / 2 ^ k
      let r := m % 2 ^ k
      Fp.round binary64 (.fin s (if 2 ^ k ≤ 2 * r then q + 1 else q) 0)
  | x => x

/-- A datum is finite when it is neither an infinity nor NaN; every float decoded from
JSON by `encoding/json` is finite. -/
def Fp.isFinite : Fp → Bool
  | .fin _ _ _ => true
  | _ => false

/-- The conversion `float64(x)` of a `float32`. -/
def Fp.toFloat64 (x : Fp) : Fp := Fp.round binary64 x

/-- The conversion `float32(x)` of a `float64`. -/
def Fp.toFloat32 (x : Fp) : Fp := Fp.round binary32 x

/-- The exact value of a finite float as a rational number (`0` for infinities and NaN); it
is used only to state what the comparisons mean. -/
def Fp.toRat : Fp → ℚ
  | .fin s m e => (if s then -(m : ℚ) else (m : ℚ)) * (2 : ℚ) ^ e
  | _ => 0

/-- The conversion `time.Duration(x)` of a float to `int64`: truncation toward zero. For a
value outside the `int64` range, an infinity or NaN the Go specification leaves the result to
the implementation; the value taken here is the one amd64 produces, `-2^63`. -/
def Fp.toInt64 : Fp → Int
  | .fin s m e =>
    let mag : Nat := if 0 ≤ e then m * 2 ^ e.toNat else m / 2 ^ (-e).toNat
    let v : Int := if s then -(mag : Int) else (mag : Int)
    if -(2 ^ 63) ≤ v ∧ v < 2 ^ 63 then v else -(2 ^ 63)
  | _ => -(2 ^ 63)

/-- Reduction of an integer to the `int64` range, as Go's wrapping arithmetic does. -/
def wrapInt64 (v : Int) : Int := (v + 2 ^ 63) % 2 ^ 64 - 2 ^ 63

/-! ## Go maps -/

/-- A Go `map[κ]υ` as an association list. The order of `entries` is the order in which a
`range` loop visits them. -/
structure GoMap (κ υ : Type) where
  entries : List (κ × υ)
  deriving DecidableEq, Repr

/-- The empty map (`make(map[κ]υ)`, or the nil map when only read). -/
def GoMap.empty {κ υ : Type} : GoMap κ υ := ⟨[]⟩

/-- The keys of the map, in visiting order. -/
def GoMap.keys {κ υ : Type} (m : GoMap κ υ) : List κ := m.entries.map Prod.fst

/-- A map is well formed when no key occurs twice. -/
def GoMap.WF {κ υ : Type} (m : GoMap κ υ) : Prop := m.keys.Nodup

instance {κ υ : Type} [DecidableEq κ] (m : GoMap κ υ) : Decidable m.WF := by
  unfold GoMap.WF
  infer_instance

/-- The lookup `v, ok := m[k]`: `some v` when the key is present. -/
def GoMap.get? {κ υ : Type} [DecidableEq κ] (m : GoMap κ υ) (k : κ) : Option υ :=
  (m.entries.find? (fun kv => decide (kv.1 = k))).map Prod.snd

/-- The index expression `m[k]`: the stored value, or the zero value `zero` of the value
type when the key is absent. -/
def GoMap.index {κ υ : Type} [DecidableEq κ] (m : GoMap κ υ) (k : κ) (zero : υ) : υ :=
  (m.get? k).getD zero

/-- Entries after the assignment `m[k] = v`. -/
def setEntries {κ υ : Type} [DecidableEq κ] (k : κ) (v : υ) :
    List (κ × υ) → List (κ × υ)
  | [] => [(k, v)]
  | kv :: rest => if kv.1 = k then (k, v) :: rest else kv :: setEntries k v rest

/-- The assignment `m[k] = v`: overwrites the value of a present key, adds the entry
otherwise. -/
def GoMap.set {κ υ : Type} [DecidableEq κ] (m : GoMap κ υ) (k : κ) (v : υ) : GoMap κ υ :=
  ⟨setEntries k v m.entries⟩

/-! ## Records and collections (`structs/intro.go`, `structs/report.go`) -/

/-- The struct `structs.Intro`. -/
structure Intro where
  EpisodeId : String
  Series : String
  Season : Int
  Title : String
  IntroStart : Fp
  IntroEnd : Fp
  Duration : Fp
  Valid : Bool
  FormattedStart : String
  FormattedEnd : String
  ShowSkipPromptAt : Fp
  HideSkipPromptAt : Fp
  deriving DecidableEq, Repr

/-- The zero value of `structs.Intro`, which a map lookup yields for an absent key. -/
def Intro.zero : Intro :=
  { EpisodeId := "", Series := "", Season := 0, Title := "",
    IntroStart := Fp.zero, IntroEnd := Fp.zero, Duration := Fp.zero, Valid := false,
    FormattedStart := "", FormattedEnd := "",
    ShowSkipPromptAt := Fp.zero, HideSkipPromptAt := Fp.zero }

/-- The type `structs.Seasons`, `map[int][]Intro`. -/
abbrev Seasons := GoMap Int (List Intro)

/-- The struct `structs.PluginConfiguration`. -/
structure PluginConfiguration where
  CacheFingerprints : Bool
  MaxParallelism : Int
  SelectedLibraries : String
  AnalysisPercent : Int
  AnalysisLengthLimit : Int
  MinimumIntroDuration : Int
  deriving DecidableEq, Repr

/-- Modelled from the spec: the struct `structs.PublicInfo`, whose declaration is not among
the sources; the spec describes it as the host server identity and version, and the callers
read the two fields `Version` and `OperatingSystem`. -/
structure PublicInfo where
  Version : String
  OperatingSystem : String
  deriving DecidableEq, Repr

/-- The struct `structs.Report`. `StartedAt` and `FinishedAt` (`time.Time`) are kept as
nanoseconds since the epoch and `Runtime` (`time.Duration`) as nanoseconds; none of the
functions embedded here reads them. -/
structure Report where
  Path : String
  StartedAt : Int
  FinishedAt : Int
  Runtime : Int
  ServerInfo : PublicInfo
  PluginConfig : PluginConfiguration
  Intros : List Intro
  IntroMap : GoMap String Intro
  Shows : GoMap String Seasons
  deriving DecidableEq, Repr

/-- The struct `structs.TemplateReportData`. -/
structure TemplateReportData where
  OldReport : Report
  NewReport : Report
  deriving DecidableEq, Repr

/-- The struct `structs.IntroPair`. -/
structure IntroPair where
  Old : Intro
  New : Intro
  WarningShort : String
  Warning : String
  deriving DecidableEq, Repr

/-! ## Template helpers (`report_comparison_util.go`) -/

/-- The closure `similar` of `templateCompareEpisodes`:
`math.Abs(float64(newTime) - float64(oldTime)) <= float64(tolerance)`. -/
def similar (tolerance : Int) (oldTime newTime : Fp) : Bool :=
  let diff := Fp.abs (Fp.sub binary64 (Fp.toFloat64 newTime) (Fp.toFloat64 oldTime))
  Fp.le diff (Fp.ofInt binary64 tolerance)

/-- The function `templateCompareEpisodes`: looks the identifier up in both lookup tables
and classifies the pair. -/
def templateCompareEpisodes (id : String) (reports : TemplateReportData) : IntroPair :=
  let tolerance : Int := 5
  let old := reports.OldReport.IntroMap.index id Intro.zero
  let new := reports.NewReport.IntroMap.index id Intro.zero
  if old.Valid && !new.Valid then
    { Old := old, New := new, WarningShort := "only_previous",
      Warning := "Introduction found in previous report, but not the current one" }
  else if !old.Valid && new.Valid then
    { Old := old, New := new, WarningShort := "improvement",
      Warning := "New introduction discovered" }
  else if !old.Valid && !new.Valid then
    { Old := old, New := new, WarningShort := "missing",
      Warning := "No introduction has ever been found for this episode" }
  else if !similar tolerance old.IntroStart new.IntroStart
      || !similar tolerance old.IntroEnd new.IntroEnd then
    { Old := old, New := new, WarningShort := "different",
      Warning := "Timestamps differ by more than " ++ toString tolerance ++ " seconds" }
  else
    { Old := old, New := new, WarningShort := "okay", Warning := "Okay" }

/-- The call of `templateCompareEpisodes` as a step on the caller's two collections: the
body reads `reports.OldReport.IntroMap[id]` and `reports.NewReport.IntroMap[id]` and
assigns only to its local `pair`, so the collections come back as they went in. -/
def templateCompareEpisodesCall (id : String) (reports : TemplateReportData) :
    IntroPair × TemplateReportData :=
  (templateCompareEpisodes id reports, reports)

/-- Go `sort.Strings`: increasing order, strings compared byte by byte (which on UTF-8 text
is the code-point order of `String`). The result of sorting by a total order does not depend
on the algorithm; insertion sort stands for the library routine. -/
def sortStrings (l : List String) : List String := l.insertionSort (fun a b => a ≤ b)

/-- Go `sort.Ints`: increasing order. -/
def sortInts (l : List Int) : List Int := l.insertionSort (fun a b => a ≤ b)

/-- The function `templateSortShows`: collects the keys by ranging over the map and sorts
them. -/
def templateSortShows (shows : GoMap String Seasons) : List String :=
  let showNames := shows.keys
  sortStrings showNames

/-- The function `templateSortSeason`: collects the season numbers by ranging over the map
and sorts them. -/
def templateSortSeason (show_ : Seasons) : List Int :=
  let keys := show_.keys
  sortInts keys

/-! ## Sample data -/

/-- A report without records, lookup tables or metadata. -/
def Report.blank : Report :=
  { Path := "", StartedAt := 0, FinishedAt := 0, Runtime := 0,
    ServerInfo := ⟨"", ""⟩, PluginConfig := ⟨false, 0, "", 0, 0, 0⟩,
    Intros := [], IntroMap := GoMap.empty, Shows := GoMap.empty }

/-- A record of episode `id` with whole-second start and end times and the given validity
flag; all other fields are zero. -/
def Intro.sample (id : String) (start stop : Int) (valid : Bool) : Intro :=
  { Intro.zero with
    EpisodeId := id, IntroStart := Fp.ofInt binary32 start, IntroEnd := Fp.ofInt binary32 stop,
    Valid := valid }

/-- A report whose lookup table holds exactly the given records under their identifiers. -/
def Report.ofIntroMap (records : List Intro) : Report :=
  { Report.blank with IntroMap := ⟨records.map (fun r => (r.EpisodeId, r))⟩ }

/-! ## Loading a report (`report_comparison.go`) -/

/-- Go `fmtFrac` of package `time`: the loop over the `prec` low decimal digits of `v`, from
the last one, which drops trailing zeros; `acc` is the text written so far and `printing`
the flag `print`. Returns the text, with the decimal point when a digit was written, and
`v / 10^prec`. -/
def fmtFrac : Nat → Nat → Bool → List Char → List Char × Nat
  | 0, v, printing, acc => (if printing then '.' :: acc else acc, v)
  | prec + 1, v, printing, acc =>
    let digit := v % 10
    let printing := printing || digit != 0
    fmtFrac prec (v / 10) printing (if printing then Nat.digitChar digit :: acc else acc)

/-- Go `time.Duration.String` for a duration of `d` nanoseconds: hours, minutes and seconds
as in `1h2m3.5s`, leading zero units omitted; below one second the units `ms`, `µs` and `ns`
are used, and the zero duration is `0s`. -/
def durationString (d : Int) : String :=
  let u : Nat := d.natAbs
  let sign : String := if d < 0 then "-" else ""
  if u < 1000000000 then
    if u = 0 then "0s"
    else if u < 1000 then
      let f := fmtFrac 0 u false []
      sign ++ toString f.2 ++ String.mk f.1 ++ "ns"
    else if u < 1000000 then
      let f := fmtFrac 3 u false []
      sign ++ toString f.2 ++ String.mk f.1 ++ "µs"
    else
      let f := fmtFrac 6 u false []
      sign ++ toString f.2 ++ String.mk f.1 ++ "ms"
  else
    let f := fmtFrac 9 u false []
    let secs := toString (f.2 % 60) ++ String.mk f.1 ++ "s"
    let mins := f.2 / 60
    if 0 < mins then
      let hours := mins / 60
      if 0 < hours then
        sign ++ toString hours ++ "h" ++ toString (mins % 60) ++ "m" ++ secs
      else
        sign ++ toString (mins % 60) ++ "m" ++ secs
    else
      sign ++ secs

/-- The expression `(time.Duration(x) * time.Second).String()` of `unmarshalReport`: the
float is truncated to a whole number, multiplied by `time.Second` in `int64` arithmetic and
printed as a duration. -/
def formatSeconds (x : Fp) : String :=
  durationString (wrapInt64 (Fp.toInt64 x * 1000000000))

/-- The three assignments at the head of the indexing loop of `unmarshalReport`, on the
loop's copy of the record: `Duration` becomes `float32(math.Round(float64(Duration)))`, and
`FormattedStart` and `FormattedEnd` the printed start and end times. -/
def Intro.indexed (intro : Intro) : Intro :=
  { intro with
    Duration := Fp.toFloat32 (Fp.mathRound (Fp.toFloat64 intro.Duration)),
    FormattedStart := formatSeconds intro.IntroStart,
    FormattedEnd := formatSeconds intro.IntroEnd }

/-- One pass of the indexing loop of `unmarshalReport` for the record `intro`. -/
def indexStep (report : Report) (intro : Intro) : Report :=
  let intro := intro.indexed
  let show_ := intro.Series
  let season := intro.Season
  let shows :=
    if (report.Shows.get? show_).isSome then report.Shows
    else report.Shows.set show_ GoMap.empty
  let episodes := (shows.index show_ GoMap.empty).index season []
  let episodes := episodes ++ [intro]
  let shows := shows.set show_ ((shows.index show_ GoMap.empty).set season episodes)
  { report with Shows := shows, IntroMap := report.IntroMap.set intro.EpisodeId intro }

/-- The function `unmarshalReport` after the file has been read and decoded: `decoded` is
the report `json.Unmarshal` filled in. Sets the path, allocates the two maps and runs the
indexing loop over `Intros`. -/
def unmarshalReport (path : String) (decoded : Report) : Report :=
  let report := { decoded with Path := path, Shows := GoMap.empty, IntroMap := GoMap.empty }
  report.Intros.foldl indexStep report

/-! ## Schema validation (`schema_validation.go`) -/

/-- The value a failing `validateV1Intro` panics with, one constructor per `panic` of the
source in source order, carrying the values the message is formatted from. -/
inductive ValidationFailure where
  | incorrectItemId (expected found : String)
  | negativeTime
  | showPromptAfterStart
  | hidePromptAfterEnd
  | durationTooShort (duration : Fp)
  | notValid
  | unknownKey (key : String)
  deriving DecidableEq, Repr

/-- Go's rendering of a `float32` under the verb `%0.2f`: the exact value rounded to two
decimals (ties to even), the sign kept on a negative zero. -/
def Fp.formatFixed2 : Fp → String
  | .nan => "NaN"
  | .inf s => if s then "-Inf" else "+Inf"
  | .fin s m e =>
    let hundredths : Nat :=
      if 0 ≤ e then m * 100 * 2 ^ e.toNat else roundNearestEven (m * 100) (-e).toNat
    let cents := hundredths % 100
    (if s then "-" else "") ++ toString (hundredths / 100) ++ "."
      ++ toString (cents / 10) ++ toString (cents % 10)

/-- The message each `panic` of `validateV1Intro` carries. -/
def ValidationFailure.message : ValidationFailure → String
  | .incorrectItemId expected found =>
    "Intro struct has incorrect item ID. Expected \'" ++ expected ++ "\', found \'"
      ++ found ++ "\'"
  | .negativeTime => "Intro struct has a negative intro start or end time"
  | .showPromptAfterStart => "Intro struct show prompt time is after intro start"
  | .hidePromptAfterEnd => "Intro struct hide prompt time is after intro end"
  | .durationTooShort duration =>
    "Intro struct has duration " ++ duration.formatFixed2 ++ " but the minimum allowed is 15"
  | .notValid => "Intro struct is not marked as valid"
  | .unknownKey key => "Intro object contains unknown key \'" ++ key ++ "\'"

/-- Equality of outcomes is decidable, so that an outcome can be computed and compared. -/
instance instDecidableEqExcept {ε α : Type} [DecidableEq ε] [DecidableEq α] :
    DecidableEq (Except ε α)
  | .ok a, .ok b => if h : a = b then isTrue (by rw [h]) else isFalse (by simpa using h)
  | .error a, .error b => if h : a = b then isTrue (by rw [h]) else isFalse (by simpa using h)
  | .ok _, .error _ => isFalse (by simp)
  | .error _, .ok _ => isFalse (by simp)

/-- The slice `allowedProperties` of `validateV1Intro`. -/
def allowedProperties : List String :=
  ["EpisodeId", "Valid", "IntroStart", "IntroEnd", "ShowSkipPromptAt", "HideSkipPromptAt"]

/-- The loop `for schemaKey := range schema` of `validateV1Intro` over the keys in visiting
order: the inner loop searches `allowedProperties` for a string equal to the key, and the
first key without one panics. -/
def checkSchemaKeys : List String → Except ValidationFailure Unit
  | [] => .ok ()
  | schemaKey :: rest =>
    let okay := allowedProperties.any (fun allowed => allowed == schemaKey)
    if !okay then .error (.unknownKey schemaKey) else checkSchemaKeys rest

/-- The function `validateV1Intro`: `.ok ()` when it returns, `.error` with the panic value
when it panics. The values of `schema` are never inspected, so their type is left open. -/
def validateV1Intro {α : Type} (id : String) (intro : Intro) (schema : GoMap String α) :
    Except ValidationFailure Unit :=
  if intro.EpisodeId != id then
    .error (.incorrectItemId id intro.EpisodeId)
  else if Fp.lt intro.IntroStart (Fp.ofInt binary32 0)
      || Fp.lt intro.IntroEnd (Fp.ofInt binary32 0) then
    .error .negativeTime
  else if Fp.gt intro.ShowSkipPromptAt intro.IntroStart then
    .error .showPromptAfterStart
  else if Fp.gt intro.HideSkipPromptAt intro.IntroEnd then
    .error .hidePromptAfterEnd
  else
    let duration := Fp.sub binary32 intro.IntroEnd intro.IntroStart
    if Fp.lt duration (Fp.ofInt binary32 15) then
      .error (.durationTooShort duration)
    else if !intro.Valid then
      .error .notValid
    else
      checkSchemaKeys schema.keys

/-- The failure names of the specification's error taxonomy that schema validation can
report. -/
inductive ErrorKind where
  | IdentityMismatch
  | NegativeTimestamp
  | PromptOrderingViolation
  | DurationTooShort
  | MarkedInvalid
  | UnknownField
  deriving DecidableEq, Repr

/-- The specification's name for each panic of `validateV1Intro`. -/
def ValidationFailure.kind : ValidationFailure → ErrorKind
  | .incorrectItemId _ _ => .IdentityMismatch
  | .negativeTime => .NegativeTimestamp
  | .showPromptAfterStart => .PromptOrderingViolation
  | .hidePromptAfterEnd => .PromptOrderingViolation
  | .durationTooShort _ => .DurationTooShort
  | .notValid => .MarkedInvalid
  | .unknownKey _ => .UnknownField

/-- The specification's list of checks (section 4.5), read on its own: the names of all the
checks an input violates, in the order the specification lists the checks. -/
def specViolations (id : String) (intro : Intro) (keys : List String) : List ErrorKind :=
  (if intro.EpisodeId = id then [] else [ErrorKind.IdentityMismatch])
  ++ (if Fp.ge intro.IntroStart (Fp.ofInt binary32 0) = true
        ∧ Fp.ge intro.IntroEnd (Fp.ofInt binary32 0) = true
      then [] else [ErrorKind.NegativeTimestamp])
  ++ (if Fp.gt intro.ShowSkipPromptAt intro.IntroStart = true
      then [ErrorKind.PromptOrderingViolation] else [])
  ++ (if Fp.gt intro.HideSkipPromptAt intro.IntroEnd = true
      then [ErrorKind.PromptOrderingViolation] else [])
  ++ (if Fp.ge (Fp.sub binary32 intro.IntroEnd intro.IntroStart) (Fp.ofInt binary32 15) = true
      then [] else [ErrorKind.DurationTooShort])
  ++ (if intro.Valid = true then [] else [ErrorKind.MarkedInvalid])
  ++ (if ∀ k ∈ keys, k ∈ allowedProperties then [] else [ErrorKind.UnknownField])

/-- A record whose four timestamps are finite, as every record decoded from JSON is. -/
def Intro.finiteTimes (intro : Intro) : Prop :=
  intro.IntroStart.isFinite = true ∧ intro.IntroEnd.isFinite = true ∧
  intro.ShowSkipPromptAt.isFinite = true ∧ intro.HideSkipPromptAt.isFinite = true

instance (intro : Intro) : Decidable intro.finiteTimes := by
  unfold Intro.finiteTimes
  infer_instance

/-- The values `encoding/json` stores in a `map[string]interface{}`. -/
inductive JsonValue where
  | null
  | bool (b : Bool)
  | number (x : Fp)
  | string (s : String)
  | array (items : List JsonValue)
  | object (fields : List (String × JsonValue))

/-- A record of episode `id` with whole-second start, end, show-prompt and hide-prompt times
and the given validity flag; all other fields are zero. -/
def Intro.sampleV1 (id : String) (start stop showAt hideAt : Int) (valid : Bool) : Intro :=
  { Intro.sample id start stop valid with
    ShowSkipPromptAt := Fp.ofInt binary32 showAt, HideSkipPromptAt := Fp.ofInt binary32 hideAt }

/-- The field mapping of a response that carries exactly the six allowed fields. -/
def sampleSchema : GoMap String JsonValue :=
  ⟨[("EpisodeId", .string "e1"), ("Valid", .bool true),
    ("IntroStart", .number (Fp.ofInt binary64 10)), ("IntroEnd", .number (Fp.ofInt binary64 25)),
    ("ShowSkipPromptAt", .number (Fp.ofInt binary64 5)),
    ("HideSkipPromptAt", .number (Fp.ofInt binary64 20))]⟩

/-- The field mapping of a response with the extra field `"Foo": 1` beside the allowed
ones. -/
def sampleSchemaFoo : GoMap String JsonValue :=
  sampleSchema.set "Foo" (.number (Fp.ofInt binary64 1))

/-- The field mapping of a response whose identifier field is spelled `episodeId`. -/
def sampleSchemaLowerCase : GoMap String JsonValue :=
  ⟨[("episodeId", .string "e1"), ("Valid", .bool true)]⟩

/-- The state of the indexing loop of `unmarshalReport` once the records `done` have been
processed, in terms of lookups: the loop invariant used in the proofs below. -/
def LoopInvariant (done : List Intro) (r : Report) : Prop :=
  (∀ k, r.IntroMap.get? k =
    ((done.filter (fun i => decide (i.EpisodeId = k))).getLast?).map Intro.indexed) ∧
  (∀ s, (r.Shows.get? s).isSome = true ↔ ∃ i ∈ done, i.Series = s) ∧
  (∀ s n, (r.Shows.index s GoMap.empty).get? n =
    if done.filter (fun i => decide (i.Series = s ∧ i.Season = n)) = [] then none
    else some ((done.filter (fun i => decide (i.Series = s ∧ i.Season = n))).map
      Intro.indexed)) ∧
  r.IntroMap.WF ∧ r.Shows.WF ∧ (∀ s, (r.Shows.index s GoMap.empty).WF)

/-- A valid record of episode `id` of season `season` of show `series`, from second 65 to
second 125. -/
def Intro.sampleEpisode (id series : String) (season : Int) : Intro :=
  { Intro.sample id 65 125 true with Series := series, Season := season }

/-- A decoded report with four records: two shows, season 2 of show `S` with two episodes
listed around an episode of season -1, and the identifier `a` used twice. -/
def Report.sampleDecoded : Report :=
  { Report.blank with
    Intros := [Intro.sampleEpisode "a" "S" 2, Intro.sampleEpisode "b" "S" (-1),
      Intro.sampleEpisode "a" "T" 2, Intro.sampleEpisode "c" "S" 2] }

/-! ## Report generation (`report_generator.go`) -/

/-- The assignment `intro.Duration = intro.IntroEnd - intro.IntroStart` of `generateReport`
on the loop's copy of a record; the difference is a `float32` difference. -/
def Intro.recomputed (intro : Intro) : Intro :=
  { intro with Duration := Fp.sub binary32 intro.IntroEnd intro.IntroStart }

/-- One pass of the loop `for i := range report.Intros` of `generateReport`: the record at
index `i` is copied, its `Duration` is assigned and the copy is stored back at index `i`.
The loop only visits indices below the length, so the branch without a record is never
taken. -/
def recomputeDurationAt (intros : List Intro) (i : Nat) : List Intro :=
  match intros[i]? with
  | some intro => intros.set i intro.recomputed
  | none => intros

/-- The duration-recomputation loop of `generateReport` over the decoded records. -/
def recomputeDurations (intros : List Intro) : List Intro :=
  (List.range intros.length).foldl recomputeDurationAt intros

/-! ## Spec-side readings used in the comparisons below -/

/-- The explanation the specification pairs with each tag (section 4.3), spelled as the
specification spells it; the empty string for any other tag. -/
def specExplanation (tag : String) : String :=
  if tag = "only_previous" then
    "introduction found in previous report, but not the current one"
  else if tag = "improvement" then "new introduction discovered"
  else if tag = "missing" then "no introduction has ever been found for this episode"
  else if tag = "different" then "timestamps differ by more than 5 seconds"
  else if tag = "okay" then "okay"
  else ""

/-- A finite `float32` datum: a value `±m * 2^e` with `m < 2^24` and `-149 ≤ e ≤ 104`
(the largest is `(2^24 - 1) * 2^104`, the spacing of the smallest is `2^-149`). -/
def Fp.isFloat32 : Fp → Bool
  | .fin _ m e => decide (m < 2 ^ 24) && decide (-149 ≤ e) && decide (e ≤ 104)
  | _ => false

/-- The field mapping of a response with the two extra fields `Foo` and `Bar`, visited in
this order. -/
def sampleSchemaFooBar : GoMap String JsonValue :=
  ⟨[("Foo", .number (Fp.ofInt binary64 1)), ("Bar", .bool true), ("EpisodeId", .string "e1")]⟩

/-- The same field mapping as `sampleSchemaFooBar`, visited in another order. -/
def sampleSchemaBarFoo : GoMap String JsonValue :=
  ⟨[("Bar", .bool true), ("Foo", .number (Fp.ofInt binary64 1)), ("EpisodeId", .string "e1")]⟩

/-- The human notation of a whole number of seconds the specification refers to ("1m5s"):
hours, minutes and seconds, leading zero units omitted. -/
def secondsNotation (n : Nat) : String :=
  if n < 60 then toString n ++ "s"
  else if n < 3600 then toString (n / 60) ++ "m" ++ toString (n % 60) ++ "s"
  else toString (n / 3600) ++ "h" ++ toString (n / 60 % 60) ++ "m" ++ toString (n % 60) ++ "s"

/-- The `float32` nearest to 65.7, which is `8611430 * 2^-17 = 65.69999694...`. -/
def Fp.sample65_7 : Fp := .fin false 8611430 (-17)

/-- A decoded record of episode `a` that starts at 65.7 s, ends at 86.2 s (the `float32`
values nearest to these) and carries the duration 20.5 s. -/
def Intro.sampleFractional : Intro :=
  { Intro.sampleEpisode "a" "S" 1 with
    IntroStart := Fp.sample65_7,
    IntroEnd := .fin false 11298406 (-17),
    Duration := .fin false 10747904 (-19) }

/-- A timestamp that `formatSeconds` prints as whole seconds without leaving the `int64`
range: finite, not negative and below 9223372037 s, so that the truncated number of seconds
times `time.Second` is below `2^63`. -/
def Fp.printableSeconds (x : Fp) : Prop :=
  x.isFinite = true ∧ 0 ≤ x.toRat ∧ x.toRat < 9223372037

/-- The display strings of a record as the indexing loop leaves them: each is a function of
its own timestamp alone, and for a printable timestamp it is the notation of the timestamp
truncated to whole seconds. -/
def Intro.formattedTruncated (r : Intro) : Prop :=
  r.FormattedStart = formatSeconds r.IntroStart ∧
  r.FormattedEnd = formatSeconds r.IntroEnd ∧
  (r.IntroStart.printableSeconds →
    r.FormattedStart = secondsNotation ⌊r.IntroStart.toRat⌋.toNat) ∧
  (r.IntroEnd.printableSeconds →
    r.FormattedEnd = secondsNotation ⌊r.IntroEnd.toRat⌋.toNat)

/-! ## Redaction of command lines (`wrapper/exec.go`) -/

/-- Go `strings.Join` on the characters of the elements. -/
def joinChars (sep : List Char) : List (List Char) → List Char
  | [] => []
  | [a] => a
  | a :: b :: rest => a ++ sep ++ joinChars sep (b :: rest)

/-- Go `strings.Join(elems, sep)`. -/
def stringsJoin (elems : List String) (sep : String) : String :=
  String.mk (joinChars sep.data (elems.map String.data))

/-- The alternatives of the group `(user|pass|key)` of the redaction regexp. -/
def sensitiveNames : List (List Char) :=
  [['u', 's', 'e', 'r'], ['p', 'a', 's', 's'], ['k', 'e', 'y']]

/-- The characters the class `[^ ]` of the redaction regexp matches. The regexp is compiled
with `regexp.MustCompilePOSIX`, that is with the syntax flags `syntax.POSIX = 0`; the flag
`ClassNL` ("allow char classes like [^a-z] and [[:space:]] to match newline") is then not
set, and a negated class excludes the line feed besides the characters it lists. -/
def classNotSpace (c : Char) : Bool := c != ' ' && c != '\n'

/-- A match of `name [^ ]+`, for one alternative `name` of the group, at the head of
`rest` (the text after the hyphen), as the text of group 1 and the length of the whole
match, hyphen included. The leftmost-longest rule takes the longest run of class
characters, and `+` asks for at least one. -/
def matchAlternative (name rest : List Char) : Option (List Char × Nat) :=
  if rest.take (name.length + 1) = name ++ [' '] then
    let value := (rest.drop (name.length + 1)).takeWhile classNotSpace
    if value = [] then none else some (name, 1 + name.length + 1 + value.length)
  else none

/-- A match of the regexp `-(user|pass|key) [^ ]+` that starts at the head of `s`. The three
alternatives start with different letters, so at most one of them applies. -/
def matchRedaction : List Char → Option (List Char × Nat)
  | '-' :: rest => (sensitiveNames.filterMap (fun name => matchAlternative name rest)).head?
  | _ => none

/-- Go `ReplaceAllString` for the redaction regexp and the template `-$1 REDACTED`, on the
characters of the text: the text is scanned from the left, each match is replaced by the
expanded template and the scan goes on after the match; `skip` counts the characters of
the current match still to pass over. -/
def redactChars : Nat → List Char → List Char
  | _, [] => []
  | skip + 1, _ :: cs => redactChars skip cs
  | 0, c :: cs =>
    match matchRedaction (c :: cs) with
    | some (name, len) =>
      '-' :: name ++ [' ', 'R', 'E', 'D', 'A', 'C', 'T', 'E', 'D'] ++ redactChars (len - 1) cs
    | none => c :: redactChars 0 cs

/-- The function `redactString`. -/
def redactString (raw : String) : String := String.mk (redactChars 0 raw.data)

/-- The string the function is to return for a list of (flag, value) pairs: the pairs joined
by spaces, the value of each `-user`, `-pass` and `-key` replaced by `REDACTED`. -/
def redactedPairs (pairs : List (String × String)) : String :=
  stringsJoin (pairs.flatMap (fun p =>
    [p.1, if p.1 = "-user" ∨ p.1 = "-pass" ∨ p.1 = "-key" then "REDACTED" else p.2])) " "

/-- The command line of a list of (flag, value) pairs, as `RunProgram` joins it. -/
def joinedPairs (pairs : List (String × String)) : String :=
  stringsJoin (pairs.flatMap (fun p => [p.1, p.2])) " "

/-- The shape the (flag, value) pairs of a command line have: the flag is a hyphen followed
by a non-empty name without spaces or hyphens, and the value is non-empty without spaces
or hyphens. -/
def flagValueShaped (p : String × String) : Prop :=
  (∃ name : List Char, p.1.data = '-' :: name ∧ name ≠ [] ∧ ' ' ∉ name ∧ '-' ∉ name) ∧
  p.2.data ≠ [] ∧ ' ' ∉ p.2.data ∧ '-' ∉ p.2.data

/-! # Verified properties -/

/-! ## Order facts of the floating-point embedding -/

/-- Exchanging the two operands of `alignInts` exchanges the two integers. -/
theorem alignInts_swap (s1 : Bool) (m1 : Nat) (e1 : Int) (s2 : Bool) (m2 : Nat) (e2 : Int) :
    alignInts s2 m2 e2 s1 m1 e1 =
      ((alignInts s1 m1 e1 s2 m2 e2).2, (alignInts s1 m1 e1 s2 m2 e2).1) := by
  simp [alignInts, min_comm]

/-- On floats other than NaN, `a < b` is the negation of `b <= a`. -/
theorem Fp.lt_eq_not_le (a b : Fp) (ha : a ≠ Fp.nan) (hb : b ≠ Fp.nan) :
    Fp.lt a b = !Fp.le b a := by
  cases a with
  | nan => exact absurd rfl ha
  | inf s =>
    cases b with
    | nan => exact absurd rfl hb
    | inf t => cases s <;> cases t <;> rfl
    | fin t m e => cases s <;> rfl
  | fin s m e =>
    cases b with
    | nan => exact absurd rfl hb
    | inf t => cases t <;> rfl
    | fin t n e2 =>
      simp only [Fp.lt, Fp.le]
      rw [alignInts_swap s m e t n e2]
      by_cases h : (alignInts s m e t n e2).1 < (alignInts s m e t n e2).2
      · simp [h]
      · simp [h, not_lt.mp h]

/-- Whatever the operands, `a <= b` excludes `b < a`. -/
theorem Fp.lt_false_of_le (a b : Fp) (h : Fp.le a b = true) : Fp.lt b a = false := by
  cases a with
  | nan => simp [Fp.le] at h
  | inf s =>
    cases b with
    | nan => simp [Fp.le] at h
    | inf t => cases s <;> cases t <;> simp_all [Fp.le, Fp.lt]
    | fin t m e => cases s <;> simp_all [Fp.le, Fp.lt]
  | fin s m e =>
    cases b with
    | nan => simp [Fp.le] at h
    | inf t => cases t <;> simp_all [Fp.le, Fp.lt]
    | fin t n e2 =>
      rw [Fp.lt_eq_not_le _ _ (by simp) (by simp), h]
      rfl

/-- Rounding a finite datum never gives NaN. -/
theorem Fp.round_fin_ne_nan (f : FloatFormat) (s : Bool) (m : Nat) (e : Int) :
    Fp.round f (.fin s m e) ≠ Fp.nan := by
  unfold Fp.round
  simp only []
  split_ifs <;> simp

/-- The difference of two finite floats is never NaN. -/
theorem Fp.sub_ne_nan_of_finite (f : FloatFormat) (a b : Fp)
    (ha : a.isFinite = true) (hb : b.isFinite = true) : Fp.sub f a b ≠ Fp.nan := by
  cases a with
  | nan => simp [Fp.isFinite] at ha
  | inf s => simp [Fp.isFinite] at ha
  | fin s m e =>
    cases b with
    | nan => simp [Fp.isFinite] at hb
    | inf t => simp [Fp.isFinite] at hb
    | fin t n e2 =>
      unfold Fp.sub
      simp only []
      split_ifs
      · simp
      · exact Fp.round_fin_ne_nan _ _ _ _

/-- A finite float is not NaN. -/
theorem Fp.ne_nan_of_finite (a : Fp) (ha : a.isFinite = true) : a ≠ Fp.nan := by
  cases a <;> simp [Fp.isFinite] at ha ⊢

/-- A float constant converted from an integer is not NaN. -/
theorem Fp.ofInt_ne_nan (f : FloatFormat) (n : Int) : Fp.ofInt f n ≠ Fp.nan :=
  Fp.round_fin_ne_nan _ _ _ _

/-! ## Meaning of the comparisons -/

/-- The two integers of `alignInts`, scaled by the common unit, are the two values. -/
theorem alignInts_toRat (s1 : Bool) (m1 : Nat) (e1 : Int) (s2 : Bool) (m2 : Nat) (e2 : Int) :
    ((alignInts s1 m1 e1 s2 m2 e2).1 : ℚ) * (2 : ℚ) ^ (min e1 e2)
      = (Fp.fin s1 m1 e1).toRat ∧
    ((alignInts s1 m1 e1 s2 m2 e2).2 : ℚ) * (2 : ℚ) ^ (min e1 e2)
      = (Fp.fin s2 m2 e2).toRat := by
  have key : ∀ (m : Nat) (e : Int), min e1 e2 ≤ e →
      ((m : ℚ) * (2 : ℚ) ^ (e - min e1 e2).toNat) * (2 : ℚ) ^ (min e1 e2)
        = (m : ℚ) * (2 : ℚ) ^ e := by
    intro m e he
    rw [mul_assoc, ← zpow_natCast, ← zpow_add₀ (by norm_num : (2 : ℚ) ≠ 0)]
    congr 2
    omega
  constructor
  · have := key m1 e1 (min_le_left _ _)
    cases s1 <;> simp [alignInts, Fp.toRat] <;> linarith
  · have := key m2 e2 (min_le_right _ _)
    cases s2 <;> simp [alignInts, Fp.toRat] <;> linarith

/-- On finite floats `Fp.le` is the order of the values. -/
theorem Fp.le_iff_toRat_le (a b : Fp) (ha : a.isFinite = true) (hb : b.isFinite = true) :
    Fp.le a b = true ↔ a.toRat ≤ b.toRat := by
  cases a with
  | nan => simp [Fp.isFinite] at ha
  | inf s => simp [Fp.isFinite] at ha
  | fin s1 m1 e1 =>
    cases b with
    | nan => simp [Fp.isFinite] at hb
    | inf t => simp [Fp.isFinite] at hb
    | fin s2 m2 e2 =>
      obtain ⟨h1, h2⟩ := alignInts_toRat s1 m1 e1 s2 m2 e2
      have hpos : (0 : ℚ) < (2 : ℚ) ^ (min e1 e2) := zpow_pos (by norm_num) _
      simp only [Fp.le, decide_eq_true_eq]
      rw [← h1, ← h2, mul_le_mul_right hpos]
      exact Int.cast_le.symm

/-- On finite floats `Fp.lt` is the strict order of the values. -/
theorem Fp.lt_iff_toRat_lt (a b : Fp) (ha : a.isFinite = true) (hb : b.isFinite = true) :
    Fp.lt a b = true ↔ a.toRat < b.toRat := by
  rw [Fp.lt_eq_not_le a b (Fp.ne_nan_of_finite a ha) (Fp.ne_nan_of_finite b hb)]
  have h := Fp.le_iff_toRat_le b a hb ha
  cases hle : Fp.le b a
  · simp only [Bool.not_false, true_iff]
    rw [hle] at h
    exact not_le.mp (fun hh => by simpa using h.mpr hh)
  · simp only [Bool.not_true, Bool.false_eq_true, false_iff, not_lt]
    exact h.mp hle

/-- The constants the source compares with are the numbers 0, 5 and 15. -/
theorem Fp.constants_toRat :
    (Fp.ofInt binary32 0).toRat = 0 ∧ (Fp.ofInt binary64 5).toRat = 5 ∧
    (Fp.ofInt binary32 15).toRat = 15 := by
  have h0 : Fp.ofInt binary32 0 = .fin false 0 0 := by decide
  have h5 : Fp.ofInt binary64 5 = .fin false 5629499534213120 (-50) := by decide
  have h15 : Fp.ofInt binary32 15 = .fin false 15728640 (-20) := by decide
  rw [h0, h5, h15]
  refine ⟨by simp [Fp.toRat], ?_, ?_⟩ <;> simp only [Fp.toRat] <;> norm_num

/-! ## Facts about the key loop of `validateV1Intro` -/

/-- The inner loop finds the key exactly when the key is one of `allowedProperties`. -/
theorem allowed_any_iff (k : String) :
    allowedProperties.any (fun allowed => allowed == k) = true ↔ k ∈ allowedProperties := by
  simp [List.any_eq_true]

/-- The key loop passes exactly when every key is allowed. -/
theorem checkSchemaKeys_ok_iff (keys : List String) :
    checkSchemaKeys keys = .ok () ↔ ∀ k ∈ keys, k ∈ allowedProperties := by
  induction keys with
  | nil => simp [checkSchemaKeys]
  | cons k rest ih =>
    unfold checkSchemaKeys
    by_cases hk : k ∈ allowedProperties
    · have h := (allowed_any_iff k).mpr hk
      simp only [h, Bool.not_true]
      simpa [hk] using ih
    · have h : allowedProperties.any (fun allowed => allowed == k) = false :=
        Bool.eq_false_iff.mpr (fun hh => hk ((allowed_any_iff k).mp hh))
      simp [h, hk]

/-- When the key loop fails it names the first key, in visiting order, that is not allowed. -/
theorem checkSchemaKeys_error (keys : List String) (e : ValidationFailure)
    (h : checkSchemaKeys keys = .error e) :
    ∃ k, e = .unknownKey k ∧
      keys.find? (fun k => decide (k ∉ allowedProperties)) = some k := by
  induction keys with
  | nil => simp [checkSchemaKeys] at h
  | cons k rest ih =>
    unfold checkSchemaKeys at h
    by_cases hk : k ∈ allowedProperties
    · have h2 := (allowed_any_iff k).mpr hk
      simp only [h2, Bool.not_true] at h
      obtain ⟨k2, hk2, hf⟩ := ih h
      refine ⟨k2, hk2, ?_⟩
      rw [List.find?_cons_of_neg _ (by simpa using hk)]
      exact hf
    · have h2 : allowedProperties.any (fun allowed => allowed == k) = false :=
        Bool.eq_false_iff.mpr (fun hh => hk ((allowed_any_iff k).mp hh))
      simp only [h2, Bool.not_false, if_true] at h
      refine ⟨k, ?_, ?_⟩
      · cases h
        rfl
      · rw [List.find?_cons_of_pos _ (by simpa using hk)]

/-! ## Properties of `templateCompareEpisodes` -/

/-- C1. For an identifier whose records in the old and in the new lookup table are both
valid, the tag is `okay` exactly when `|new.IntroStart - old.IntroStart| <= 5` and
`|new.IntroEnd - old.IntroEnd| <= 5` (the difference, absolute value and comparison being the
`float64` operations the source applies), and it is `different` otherwise. -/
theorem templateCompareEpisodes_valid_pair (id : String) (reports : TemplateReportData)
    (old new : Intro)
    (hOld : reports.OldReport.IntroMap.get? id = some old)
    (hNew : reports.NewReport.IntroMap.get? id = some new)
    (hOldValid : old.Valid = true) (hNewValid : new.Valid = true) :
    ((templateCompareEpisodes id reports).WarningShort = "okay" ↔
      (Fp.le (Fp.abs (Fp.sub binary64 (Fp.toFloat64 new.IntroStart)
          (Fp.toFloat64 old.IntroStart))) (Fp.ofInt binary64 5) = true ∧
       Fp.le (Fp.abs (Fp.sub binary64 (Fp.toFloat64 new.IntroEnd)
          (Fp.toFloat64 old.IntroEnd))) (Fp.ofInt binary64 5) = true)) ∧
    ((templateCompareEpisodes id reports).WarningShort ≠ "okay" →
      (templateCompareEpisodes id reports).WarningShort = "different") := by
  have ho : reports.OldReport.IntroMap.index id Intro.zero = old := by
    simp [GoMap.index, hOld]
  have hn : reports.NewReport.IntroMap.index id Intro.zero = new := by
    simp [GoMap.index, hNew]
  unfold templateCompareEpisodes
  simp only [ho, hn, hOldValid, hNewValid, similar]
  by_cases h1 : Fp.le (Fp.abs (Fp.sub binary64 (Fp.toFloat64 new.IntroStart)
      (Fp.toFloat64 old.IntroStart))) (Fp.ofInt binary64 5) = true <;>
  by_cases h2 : Fp.le (Fp.abs (Fp.sub binary64 (Fp.toFloat64 new.IntroEnd)
      (Fp.toFloat64 old.IntroEnd))) (Fp.ofInt binary64 5) = true <;>
  simp [h1, h2]

/-- Witness of C1: old 30/50 against new 31/49 and against new 35/45 (both deltas exactly
5) is `okay`; old 30/50 against new 40/50 is `different`. -/
theorem templateCompareEpisodes_valid_pair_witness :
    (templateCompareEpisodes "e1" ⟨Report.ofIntroMap [Intro.sample "e1" 30 50 true],
        Report.ofIntroMap [Intro.sample "e1" 31 49 true]⟩).WarningShort = "okay" ∧
    (templateCompareEpisodes "e1" ⟨Report.ofIntroMap [Intro.sample "e1" 30 50 true],
        Report.ofIntroMap [Intro.sample "e1" 35 45 true]⟩).WarningShort = "okay" ∧
    (templateCompareEpisodes "e1" ⟨Report.ofIntroMap [Intro.sample "e1" 30 50 true],
        Report.ofIntroMap [Intro.sample "e1" 40 50 true]⟩).WarningShort = "different" :=
  ⟨(templateCompareEpisodes_valid_pair "e1"
      ⟨Report.ofIntroMap [Intro.sample "e1" 30 50 true],
        Report.ofIntroMap [Intro.sample "e1" 31 49 true]⟩
      (Intro.sample "e1" 30 50 true) (Intro.sample "e1" 31 49 true)
      (by decide) (by decide) (by decide) (by decide)).1.mpr (by decide),
   (templateCompareEpisodes_valid_pair "e1"
      ⟨Report.ofIntroMap [Intro.sample "e1" 30 50 true],
        Report.ofIntroMap [Intro.sample "e1" 35 45 true]⟩
      (Intro.sample "e1" 30 50 true) (Intro.sample "e1" 35 45 true)
      (by decide) (by decide) (by decide) (by decide)).1.mpr (by decide),
   (templateCompareEpisodes_valid_pair "e1"
      ⟨Report.ofIntroMap [Intro.sample "e1" 30 50 true],
        Report.ofIntroMap [Intro.sample "e1" 40 50 true]⟩
      (Intro.sample "e1" 30 50 true) (Intro.sample "e1" 40 50 true)
      (by decide) (by decide) (by decide) (by decide)).2 (by decide)⟩

/-- C2. When at least one of the two records found for the identifier is invalid, the tag
follows from the two validity flags alone: both invalid gives `missing`, old valid and new
invalid gives `only_previous`, old invalid and new valid gives `improvement`; the tag is
then never `different` or `okay`, and two such pairs with the same flags get the same tag
and message whatever their timestamps are. -/
theorem templateCompareEpisodes_invalid_pair (id : String) (reports : TemplateReportData) :
    ((reports.OldReport.IntroMap.index id Intro.zero).Valid = false →
      (reports.NewReport.IntroMap.index id Intro.zero).Valid = false →
      (templateCompareEpisodes id reports).WarningShort = "missing") ∧
    ((reports.OldReport.IntroMap.index id Intro.zero).Valid = true →
      (reports.NewReport.IntroMap.index id Intro.zero).Valid = false →
      (templateCompareEpisodes id reports).WarningShort = "only_previous") ∧
    ((reports.OldReport.IntroMap.index id Intro.zero).Valid = false →
      (reports.NewReport.IntroMap.index id Intro.zero).Valid = true →
      (templateCompareEpisodes id reports).WarningShort = "improvement") ∧
    (¬ ((reports.OldReport.IntroMap.index id Intro.zero).Valid = true ∧
        (reports.NewReport.IntroMap.index id Intro.zero).Valid = true) →
      (templateCompareEpisodes id reports).WarningShort ≠ "different" ∧
      (templateCompareEpisodes id reports).WarningShort ≠ "okay") ∧
    (∀ (id2 : String) (reports2 : TemplateReportData),
      ¬ ((reports.OldReport.IntroMap.index id Intro.zero).Valid = true ∧
        (reports.NewReport.IntroMap.index id Intro.zero).Valid = true) →
      (reports2.OldReport.IntroMap.index id2 Intro.zero).Valid =
        (reports.OldReport.IntroMap.index id Intro.zero).Valid →
      (reports2.NewReport.IntroMap.index id2 Intro.zero).Valid =
        (reports.NewReport.IntroMap.index id Intro.zero).Valid →
      (templateCompareEpisodes id2 reports2).WarningShort =
        (templateCompareEpisodes id reports).WarningShort ∧
      (templateCompareEpisodes id2 reports2).Warning =
        (templateCompareEpisodes id reports).Warning) := by
  refine ⟨?_, ?_, ?_, ?_, ?_⟩
  · intro h1 h2
    simp [templateCompareEpisodes, h1, h2]
  · intro h1 h2
    simp [templateCompareEpisodes, h1, h2]
  · intro h1 h2
    simp [templateCompareEpisodes, h1, h2]
  · intro h
    cases h1 : (reports.OldReport.IntroMap.index id Intro.zero).Valid <;>
    cases h2 : (reports.NewReport.IntroMap.index id Intro.zero).Valid <;>
    simp [templateCompareEpisodes, h1, h2] at h ⊢
  · intro id2 reports2 h e1 e2
    cases h1 : (reports.OldReport.IntroMap.index id Intro.zero).Valid <;>
    cases h2 : (reports.NewReport.IntroMap.index id Intro.zero).Valid <;>
    simp [templateCompareEpisodes, h1, h2] at h e1 e2 ⊢ <;>
    simp [e1, e2]

/-- Witness of C2: an invalid old record with start 30 and end 50 against a valid new one
is `improvement`, and the pair with the roles exchanged is `only_previous`. -/
theorem templateCompareEpisodes_invalid_pair_witness :
    (templateCompareEpisodes "e1" ⟨Report.ofIntroMap [Intro.sample "e1" 30 50 false],
        Report.ofIntroMap [Intro.sample "e1" 90 120 true]⟩).WarningShort = "improvement" ∧
    (templateCompareEpisodes "e1" ⟨Report.ofIntroMap [Intro.sample "e1" 90 120 true],
        Report.ofIntroMap [Intro.sample "e1" 30 50 false]⟩).WarningShort = "only_previous" ∧
    (templateCompareEpisodes "e1" ⟨Report.ofIntroMap [Intro.sample "e1" 90 120 false],
        Report.ofIntroMap [Intro.sample "e1" 30 50 false]⟩).WarningShort = "missing" :=
  ⟨(templateCompareEpisodes_invalid_pair "e1"
      ⟨Report.ofIntroMap [Intro.sample "e1" 30 50 false],
        Report.ofIntroMap [Intro.sample "e1" 90 120 true]⟩).2.2.1 (by decide) (by decide),
   (templateCompareEpisodes_invalid_pair "e1"
      ⟨Report.ofIntroMap [Intro.sample "e1" 90 120 true],
        Report.ofIntroMap [Intro.sample "e1" 30 50 false]⟩).2.1 (by decide) (by decide),
   (templateCompareEpisodes_invalid_pair "e1"
      ⟨Report.ofIntroMap [Intro.sample "e1" 90 120 false],
        Report.ofIntroMap [Intro.sample "e1" 30 50 false]⟩).1 (by decide) (by decide)⟩

/-- C3. The pair's `Old` (resp. `New`) record is the entry stored under the identifier in
the old (resp. new) lookup table when there is one and the zero-value record, whose `Valid`
is false, when there is none; hence an identifier absent from the old table and valid in the
new one is tagged `improvement`, and one absent from both is tagged `missing`. -/
theorem templateCompareEpisodes_lookup (id : String) (reports : TemplateReportData) :
    (∀ r, reports.OldReport.IntroMap.get? id = some r →
      (templateCompareEpisodes id reports).Old = r) ∧
    (reports.OldReport.IntroMap.get? id = none →
      (templateCompareEpisodes id reports).Old = Intro.zero) ∧
    (∀ r, reports.NewReport.IntroMap.get? id = some r →
      (templateCompareEpisodes id reports).New = r) ∧
    (reports.NewReport.IntroMap.get? id = none →
      (templateCompareEpisodes id reports).New = Intro.zero) ∧
    Intro.zero.Valid = false ∧
    (∀ r, reports.OldReport.IntroMap.get? id = none →
      reports.NewReport.IntroMap.get? id = some r → r.Valid = true →
      (templateCompareEpisodes id reports).WarningShort = "improvement") ∧
    (reports.OldReport.IntroMap.get? id = none →
      reports.NewReport.IntroMap.get? id = none →
      (templateCompareEpisodes id reports).WarningShort = "missing") := by
  have hOldRec : (templateCompareEpisodes id reports).Old =
      reports.OldReport.IntroMap.index id Intro.zero := by
    unfold templateCompareEpisodes
    simp only []
    split_ifs <;> rfl
  have hNewRec : (templateCompareEpisodes id reports).New =
      reports.NewReport.IntroMap.index id Intro.zero := by
    unfold templateCompareEpisodes
    simp only []
    split_ifs <;> rfl
  refine ⟨?_, ?_, ?_, ?_, rfl, ?_, ?_⟩
  · intro r h
    rw [hOldRec]
    simp [GoMap.index, h]
  · intro h
    rw [hOldRec]
    simp [GoMap.index, h]
  · intro r h
    rw [hNewRec]
    simp [GoMap.index, h]
  · intro h
    rw [hNewRec]
    simp [GoMap.index, h]
  · intro r h1 h2 hv
    have ho : (reports.OldReport.IntroMap.index id Intro.zero).Valid = false := by
      simp [GoMap.index, h1, Intro.zero]
    have hn : (reports.NewReport.IntroMap.index id Intro.zero).Valid = true := by
      simp [GoMap.index, h2, hv]
    simp [templateCompareEpisodes, ho, hn]
  · intro h1 h2
    have ho : (reports.OldReport.IntroMap.index id Intro.zero).Valid = false := by
      simp [GoMap.index, h1, Intro.zero]
    have hn : (reports.NewReport.IntroMap.index id Intro.zero).Valid = false := by
      simp [GoMap.index, h2, Intro.zero]
    simp [templateCompareEpisodes, ho, hn]

/-- Witness of C3: with no record of `e1` in the old table and the valid record with start
10 and end 30 in the new one, the pair holds the zero record and that record and is tagged
`improvement`; `e2`, absent from both tables, is tagged `missing`. -/
theorem templateCompareEpisodes_lookup_witness :
    (templateCompareEpisodes "e1" ⟨Report.ofIntroMap [],
        Report.ofIntroMap [Intro.sample "e1" 10 30 true]⟩).Old = Intro.zero ∧
    (templateCompareEpisodes "e1" ⟨Report.ofIntroMap [],
        Report.ofIntroMap [Intro.sample "e1" 10 30 true]⟩).New = Intro.sample "e1" 10 30 true ∧
    (templateCompareEpisodes "e1" ⟨Report.ofIntroMap [],
        Report.ofIntroMap [Intro.sample "e1" 10 30 true]⟩).WarningShort = "improvement" ∧
    (templateCompareEpisodes "e2" ⟨Report.ofIntroMap [],
        Report.ofIntroMap [Intro.sample "e1" 10 30 true]⟩).WarningShort = "missing" :=
  ⟨(templateCompareEpisodes_lookup "e1" ⟨Report.ofIntroMap [],
      Report.ofIntroMap [Intro.sample "e1" 10 30 true]⟩).2.1 (by decide),
   (templateCompareEpisodes_lookup "e1" ⟨Report.ofIntroMap [],
      Report.ofIntroMap [Intro.sample "e1" 10 30 true]⟩).2.2.1
      (Intro.sample "e1" 10 30 true) (by decide),
   (templateCompareEpisodes_lookup "e1" ⟨Report.ofIntroMap [],
      Report.ofIntroMap [Intro.sample "e1" 10 30 true]⟩).2.2.2.2.2.1
      (Intro.sample "e1" 10 30 true) (by decide) (by decide) (by decide),
   (templateCompareEpisodes_lookup "e2" ⟨Report.ofIntroMap [],
      Report.ofIntroMap [Intro.sample "e1" 10 30 true]⟩).2.2.2.2.2.2 (by decide) (by decide)⟩

/-- C8. The result depends only on the identifier and the two lookup tables: two inputs
whose old tables agree and whose new tables agree give the same pair (records, tag and
message), whatever their grouping maps, record lists, paths and metadata are; and the call
leaves both collections as they were. -/
theorem templateCompareEpisodes_depends_on_lookup_tables (id : String)
    (reports1 reports2 : TemplateReportData)
    (hOld : reports1.OldReport.IntroMap = reports2.OldReport.IntroMap)
    (hNew : reports1.NewReport.IntroMap = reports2.NewReport.IntroMap) :
    templateCompareEpisodes id reports1 = templateCompareEpisodes id reports2 ∧
    (templateCompareEpisodesCall id reports1).2 = reports1 ∧
    (templateCompareEpisodesCall id reports2).2 = reports2 := by
  refine ⟨?_, rfl, rfl⟩
  unfold templateCompareEpisodes
  rw [hOld, hNew]

/-- Witness of C8: two inputs with the same lookup tables, the second with another path,
record list and grouping map, give the same pair. -/
theorem templateCompareEpisodes_depends_on_lookup_tables_witness :
    templateCompareEpisodes "e1"
        ⟨Report.ofIntroMap [Intro.sample "e1" 30 50 true],
          Report.ofIntroMap [Intro.sample "e1" 40 50 true]⟩ =
      templateCompareEpisodes "e1"
        ⟨{ Report.ofIntroMap [Intro.sample "e1" 30 50 true] with
            Path := "old.json", Intros := [Intro.sample "e9" 1 2 false],
            Shows := ⟨[("Show", ⟨[(1, [Intro.sample "e9" 1 2 false])]⟩)]⟩ },
          { Report.ofIntroMap [Intro.sample "e1" 40 50 true] with
            Path := "new.json", Runtime := 5 }⟩ :=
  (templateCompareEpisodes_depends_on_lookup_tables "e1"
    ⟨Report.ofIntroMap [Intro.sample "e1" 30 50 true],
      Report.ofIntroMap [Intro.sample "e1" 40 50 true]⟩
    ⟨{ Report.ofIntroMap [Intro.sample "e1" 30 50 true] with
        Path := "old.json", Intros := [Intro.sample "e9" 1 2 false],
        Shows := ⟨[("Show", ⟨[(1, [Intro.sample "e9" 1 2 false])]⟩)]⟩ },
      { Report.ofIntroMap [Intro.sample "e1" 40 50 true] with
        Path := "new.json", Runtime := 5 }⟩
    rfl rfl).1

/-! ## Properties of `validateV1Intro` -/

/-- The outcome of `validateV1Intro` through the source's own tests, in source order. -/
theorem validateV1Intro_ok_iff {α : Type} (id : String) (intro : Intro)
    (schema : GoMap String α) :
    validateV1Intro id intro schema = .ok () ↔
      (intro.EpisodeId = id ∧ Fp.lt intro.IntroStart (Fp.ofInt binary32 0) = false ∧
        Fp.lt intro.IntroEnd (Fp.ofInt binary32 0) = false ∧
        Fp.gt intro.ShowSkipPromptAt intro.IntroStart = false ∧
        Fp.gt intro.HideSkipPromptAt intro.IntroEnd = false ∧
        Fp.lt (Fp.sub binary32 intro.IntroEnd intro.IntroStart) (Fp.ofInt binary32 15) = false ∧
        intro.Valid = true ∧ ∀ k ∈ schema.keys, k ∈ allowedProperties) := by
  unfold validateV1Intro
  by_cases h1 : intro.EpisodeId = id
  swap
  · simp [h1]
  cases h2 : Fp.lt intro.IntroStart (Fp.ofInt binary32 0)
  swap
  · simp [h1]
  cases h3 : Fp.lt intro.IntroEnd (Fp.ofInt binary32 0)
  swap
  · simp [h1]
  cases h4 : Fp.gt intro.ShowSkipPromptAt intro.IntroStart
  swap
  · simp [h1]
  cases h5 : Fp.gt intro.HideSkipPromptAt intro.IntroEnd
  swap
  · simp [h1]
  cases h6 : Fp.lt (Fp.sub binary32 intro.IntroEnd intro.IntroStart) (Fp.ofInt binary32 15)
  swap
  · simp [h1, h6]
  cases h7 : intro.Valid
  · simp [h1, h6]
  · simp [h1, h6, checkSchemaKeys_ok_iff]

/-- C4. For a decoded record (its timestamps are finite), `validateV1Intro` accepts exactly
when: `EpisodeId` equals the expected identifier; `IntroStart >= 0` and `IntroEnd >= 0`;
`ShowSkipPromptAt <= IntroStart`; `HideSkipPromptAt <= IntroEnd`;
`IntroEnd - IntroStart >= 15` (the `float32` difference); `Valid` is true; and every key of
the field mapping is one of the six allowed names. Otherwise it fails. -/
theorem validateV1Intro_accepts_iff {α : Type} (id : String) (intro : Intro)
    (schema : GoMap String α) (hfin : intro.finiteTimes) :
    (validateV1Intro id intro schema = .ok () ↔
      (intro.EpisodeId = id ∧
        Fp.ge intro.IntroStart (Fp.ofInt binary32 0) = true ∧
        Fp.ge intro.IntroEnd (Fp.ofInt binary32 0) = true ∧
        Fp.le intro.ShowSkipPromptAt intro.IntroStart = true ∧
        Fp.le intro.HideSkipPromptAt intro.IntroEnd = true ∧
        Fp.ge (Fp.sub binary32 intro.IntroEnd intro.IntroStart) (Fp.ofInt binary32 15) = true ∧
        intro.Valid = true ∧
        ∀ k ∈ schema.keys, k ∈ ["EpisodeId", "Valid", "IntroStart", "IntroEnd",
          "ShowSkipPromptAt", "HideSkipPromptAt"])) ∧
    (validateV1Intro id intro schema ≠ .ok () →
      ∃ e, validateV1Intro id intro schema = .error e) := by
  obtain ⟨hs, he, hsh, hh⟩ := hfin
  have ns := Fp.ne_nan_of_finite _ hs
  have ne := Fp.ne_nan_of_finite _ he
  have nsh := Fp.ne_nan_of_finite _ hsh
  have nh := Fp.ne_nan_of_finite _ hh
  have nd := Fp.sub_ne_nan_of_finite binary32 _ _ he hs
  constructor
  · rw [validateV1Intro_ok_iff]
    simp only [Fp.ge, Fp.gt]
    rw [Fp.lt_eq_not_le _ _ ns (Fp.ofInt_ne_nan _ _), Fp.lt_eq_not_le _ _ ne (Fp.ofInt_ne_nan _ _),
      Fp.lt_eq_not_le _ _ ns nsh, Fp.lt_eq_not_le _ _ ne nh,
      Fp.lt_eq_not_le _ _ nd (Fp.ofInt_ne_nan _ _)]
    simp [allowedProperties]
  · intro h
    cases hr : validateV1Intro id intro schema with
    | ok u => exact absurd hr h
    | error e => exact ⟨e, rfl⟩

/-- Witness of C4: the record with start 10, end 25 (duration exactly 15), prompts at 5 and
20 and the six allowed fields is accepted; the same record ending at 24 is not. -/
theorem validateV1Intro_accepts_iff_witness :
    (Intro.sampleV1 "e1" 10 25 5 20 true).finiteTimes ∧
    validateV1Intro "e1" (Intro.sampleV1 "e1" 10 25 5 20 true) sampleSchema = .ok () ∧
    ∃ e, validateV1Intro "e1" (Intro.sampleV1 "e1" 10 24 5 20 true) sampleSchema = .error e :=
  ⟨by decide,
   (validateV1Intro_accepts_iff "e1" (Intro.sampleV1 "e1" 10 25 5 20 true) sampleSchema
      (by decide)).1.mpr (by decide),
   (validateV1Intro_accepts_iff "e1" (Intro.sampleV1 "e1" 10 24 5 20 true) sampleSchema
      (by decide)).2 (by decide)⟩

/-- C9. A failing `validateV1Intro` reports the first violated check in the order the
specification lists them (IdentityMismatch, NegativeTimestamp, PromptOrderingViolation for
the show prompt and then for the hide prompt, DurationTooShort, MarkedInvalid,
UnknownField), and it accepts exactly when no check is violated; this for decoded records,
whose timestamps are finite. In particular an input with a matching identifier,
non-negative start and end and `ShowSkipPromptAt > IntroStart` fails with
PromptOrderingViolation whatever its duration, validity flag and keys are. -/
theorem validateV1Intro_reports_first_violation {α : Type} (id : String) (intro : Intro)
    (schema : GoMap String α) :
    (intro.finiteTimes →
      (validateV1Intro id intro schema = .ok () ↔ specViolations id intro schema.keys = []) ∧
      (∀ e, validateV1Intro id intro schema = .error e →
        (specViolations id intro schema.keys).head? = some e.kind)) ∧
    (intro.EpisodeId = id →
      Fp.ge intro.IntroStart (Fp.ofInt binary32 0) = true →
      Fp.ge intro.IntroEnd (Fp.ofInt binary32 0) = true →
      Fp.gt intro.ShowSkipPromptAt intro.IntroStart = true →
      validateV1Intro id intro schema = .error .showPromptAfterStart ∧
      ValidationFailure.showPromptAfterStart.kind = ErrorKind.PromptOrderingViolation) := by
  constructor
  · intro hfin
    obtain ⟨hs, he, hsh, hh⟩ := hfin
    have ns := Fp.ne_nan_of_finite _ hs
    have ne := Fp.ne_nan_of_finite _ he
    have nd := Fp.sub_ne_nan_of_finite binary32 _ _ he hs
    have r1 := Fp.lt_eq_not_le _ _ ns (Fp.ofInt_ne_nan binary32 0)
    have r2 := Fp.lt_eq_not_le _ _ ne (Fp.ofInt_ne_nan binary32 0)
    have r3 := Fp.lt_eq_not_le _ _ nd (Fp.ofInt_ne_nan binary32 15)
    have hkeys := checkSchemaKeys_ok_iff schema.keys
    constructor
    · rw [validateV1Intro_ok_iff]
      unfold specViolations
      simp only [Fp.ge, r1, r2, r3]
      simp only [List.append_eq_nil, ite_eq_left_iff, ite_eq_right_iff, List.cons_ne_nil,
        imp_false, not_not, Bool.not_eq_true, Bool.not_eq_false, Bool.not_eq_eq_eq_not,
        Bool.not_false]
      tauto
    · intro e hres
      unfold validateV1Intro at hres
      simp only [r1, r2, r3] at hres
      unfold specViolations
      simp only [Fp.ge]
      by_cases h1 : intro.EpisodeId = id
      swap
      · simp [h1] at hres
        simp [h1, ← hres, ValidationFailure.kind]
      rcases Bool.eq_false_or_eq_true (Fp.le (Fp.ofInt binary32 0) intro.IntroStart) with h2 | h2
      swap
      · simp [h1, h2] at hres
        simp [h1, h2, ← hres, ValidationFailure.kind]
      rcases Bool.eq_false_or_eq_true (Fp.le (Fp.ofInt binary32 0) intro.IntroEnd) with h3 | h3
      swap
      · simp [h1, h2, h3] at hres
        simp [h1, h2, h3, ← hres, ValidationFailure.kind]
      rcases Bool.eq_false_or_eq_true (Fp.gt intro.ShowSkipPromptAt intro.IntroStart) with h4 | h4
      · simp [h1, h2, h3, h4] at hres
        simp [h1, h2, h3, h4, ← hres, ValidationFailure.kind]
      rcases Bool.eq_false_or_eq_true (Fp.gt intro.HideSkipPromptAt intro.IntroEnd) with h5 | h5
      · simp [h1, h2, h3, h4, h5] at hres
        simp [h1, h2, h3, h4, h5, ← hres, ValidationFailure.kind]
      rcases Bool.eq_false_or_eq_true
        (Fp.le (Fp.ofInt binary32 15) (Fp.sub binary32 intro.IntroEnd intro.IntroStart))
        with h6 | h6
      swap
      · simp [h1, h2, h3, h4, h5, h6] at hres
        simp [h1, h2, h3, h4, h5, h6, ← hres, ValidationFailure.kind]
      rcases Bool.eq_false_or_eq_true intro.Valid with h7 | h7
      swap
      · simp [h1, h2, h3, h4, h5, h6, h7] at hres
        simp [h1, h2, h3, h4, h5, h6, h7, ← hres, ValidationFailure.kind]
      simp [h1, h2, h3, h4, h5, h6, h7] at hres
      have h8 : ¬ ∀ k ∈ schema.keys, k ∈ allowedProperties := by
        intro hall
        rw [hkeys.mpr hall] at hres
        cases hres
      obtain ⟨k, hk, _⟩ := checkSchemaKeys_error _ _ hres
      simp only [h1, h2, h3, h4, h5, h6, h7, h8]
      simp [hk, ValidationFailure.kind]
  · intro h1 h2 h3 h4
    have l2 := Fp.lt_false_of_le _ _ h2
    have l3 := Fp.lt_false_of_le _ _ h3
    unfold validateV1Intro
    simp [h1, l2, l3, h4, ValidationFailure.kind]

/-- Witness of C9: the record with show prompt 12 after start 10 fails with
PromptOrderingViolation although it is also too short (duration 3), marked invalid and sent
with the unknown key `Foo`; and its first violated check in the specification's order is
that one. -/
theorem validateV1Intro_reports_first_violation_witness :
    (Intro.sampleV1 "e1" 10 13 12 20 false).finiteTimes ∧
    (specViolations "e1" (Intro.sampleV1 "e1" 10 13 12 20 false) sampleSchemaFoo.keys).head?
      = some ErrorKind.PromptOrderingViolation ∧
    validateV1Intro "e1" (Intro.sampleV1 "e1" 10 13 12 20 false) sampleSchemaFoo
      = .error .showPromptAfterStart :=
  ⟨by decide,
   ((validateV1Intro_reports_first_violation "e1" (Intro.sampleV1 "e1" 10 13 12 20 false)
      sampleSchemaFoo).1 (by decide)).2 ValidationFailure.showPromptAfterStart (by decide),
   ((validateV1Intro_reports_first_violation "e1" (Intro.sampleV1 "e1" 10 13 12 20 false)
      sampleSchemaFoo).2 (by decide) (by decide) (by decide) (by decide)).1⟩

/-- C10. When the record passes all record checks (identifier, non-negative times, prompt
ordering, duration at least 15, valid) and the field mapping has a key outside the six
allowed names, `validateV1Intro` fails with UnknownField, and the key it names is a key of
the mapping outside the allowed set (the first such key the loop visits); keys are compared
as exact strings. -/
theorem validateV1Intro_unknown_field {α : Type} (id : String) (intro : Intro)
    (schema : GoMap String α)
    (hid : intro.EpisodeId = id)
    (hstart : Fp.ge intro.IntroStart (Fp.ofInt binary32 0) = true)
    (hend : Fp.ge intro.IntroEnd (Fp.ofInt binary32 0) = true)
    (hshow : Fp.le intro.ShowSkipPromptAt intro.IntroStart = true)
    (hhide : Fp.le intro.HideSkipPromptAt intro.IntroEnd = true)
    (hdur : Fp.ge (Fp.sub binary32 intro.IntroEnd intro.IntroStart) (Fp.ofInt binary32 15) = true)
    (hvalid : intro.Valid = true)
    (hkey : ∃ k ∈ schema.keys, k ∉ ["EpisodeId", "Valid", "IntroStart", "IntroEnd",
      "ShowSkipPromptAt", "HideSkipPromptAt"]) :
    ∃ k, validateV1Intro id intro schema = .error (.unknownKey k) ∧
      (ValidationFailure.unknownKey k).kind = ErrorKind.UnknownField ∧
      k ∈ schema.keys ∧
      k ∉ ["EpisodeId", "Valid", "IntroStart", "IntroEnd", "ShowSkipPromptAt",
        "HideSkipPromptAt"] ∧
      schema.keys.find? (fun k => decide (k ∉ allowedProperties)) = some k := by
  have l1 := Fp.lt_false_of_le _ _ hstart
  have l2 := Fp.lt_false_of_le _ _ hend
  have l3 := Fp.lt_false_of_le _ _ hshow
  have l4 := Fp.lt_false_of_le _ _ hhide
  have l5 := Fp.lt_false_of_le _ _ hdur
  have hv : validateV1Intro id intro schema = checkSchemaKeys schema.keys := by
    unfold validateV1Intro
    simp [hid, l1, l2, Fp.gt, l3, l4, l5, hvalid]
  have hno : checkSchemaKeys schema.keys ≠ .ok () := by
    intro hc
    obtain ⟨k, hk, hk2⟩ := hkey
    exact hk2 ((checkSchemaKeys_ok_iff _).mp hc k hk)
  cases hr : checkSchemaKeys schema.keys with
  | ok u => exact absurd hr hno
  | error e =>
    obtain ⟨k, hk, hfind⟩ := checkSchemaKeys_error _ _ hr
    refine ⟨k, by rw [hv, hr, hk], rfl, List.mem_of_find?_eq_some hfind, ?_, hfind⟩
    have := List.find?_some hfind
    simpa [allowedProperties] using this

/-- Witness of C10: the accepted record sent with the extra key `Foo` fails naming `Foo`,
and sent with the identifier field spelled `episodeId` fails naming `episodeId`. -/
theorem validateV1Intro_unknown_field_witness :
    (∃ k, validateV1Intro "e1" (Intro.sampleV1 "e1" 10 25 5 20 true) sampleSchemaFoo
        = .error (.unknownKey k) ∧
      (ValidationFailure.unknownKey k).kind = ErrorKind.UnknownField ∧
      k ∈ sampleSchemaFoo.keys ∧
      k ∉ ["EpisodeId", "Valid", "IntroStart", "IntroEnd", "ShowSkipPromptAt",
        "HideSkipPromptAt"] ∧
      sampleSchemaFoo.keys.find? (fun k => decide (k ∉ allowedProperties)) = some k) ∧
    validateV1Intro "e1" (Intro.sampleV1 "e1" 10 25 5 20 true) sampleSchemaFoo
      = .error (.unknownKey "Foo") ∧
    validateV1Intro "e1" (Intro.sampleV1 "e1" 10 25 5 20 true) sampleSchemaLowerCase
      = .error (.unknownKey "episodeId") :=
  ⟨validateV1Intro_unknown_field "e1" (Intro.sampleV1 "e1" 10 25 5 20 true) sampleSchemaFoo
      (by decide) (by decide) (by decide) (by decide) (by decide) (by decide) (by decide)
      ⟨"Foo", by decide, by decide⟩,
   by decide, by decide⟩

/-! ## Facts about Go maps -/

/-- Looking up the key just assigned gives the assigned value. -/
theorem setEntries_find_self {κ υ : Type} [DecidableEq κ] (k : κ) (v : υ)
    (l : List (κ × υ)) :
    (setEntries k v l).find? (fun kv => decide (kv.1 = k)) = some (k, v) := by
  induction l with
  | nil => simp [setEntries]
  | cons kv rest ih =>
    unfold setEntries
    by_cases h : kv.1 = k
    · simp [h]
    · simp only [h, if_false]
      rw [List.find?_cons_of_neg _ (by simpa using h)]
      exact ih

/-- An assignment leaves the lookup of every other key as it was. -/
theorem setEntries_find_other {κ υ : Type} [DecidableEq κ] (k k2 : κ) (v : υ)
    (l : List (κ × υ)) (hne : k2 ≠ k) :
    (setEntries k v l).find? (fun kv => decide (kv.1 = k2)) =
      l.find? (fun kv => decide (kv.1 = k2)) := by
  induction l with
  | nil =>
    simp only [setEntries]
    rw [List.find?_cons_of_neg _ (by simpa using fun h => hne h.symm)]
  | cons kv rest ih =>
    unfold setEntries
    by_cases h : kv.1 = k
    · simp only [h, if_true]
      rw [List.find?_cons_of_neg _ (by simpa using fun h2 => hne h2.symm),
        List.find?_cons_of_neg _ (by simpa [h] using fun h2 => hne h2.symm)]
    · simp only [h, if_false]
      by_cases h2 : kv.1 = k2
      · rw [List.find?_cons_of_pos _ (by simpa using h2),
          List.find?_cons_of_pos _ (by simpa using h2)]
      · rw [List.find?_cons_of_neg _ (by simpa using h2),
          List.find?_cons_of_neg _ (by simpa using h2)]
        exact ih

/-- The keys after an assignment: unchanged for a present key, the new key appended
otherwise. -/
theorem setEntries_keys {κ υ : Type} [DecidableEq κ] (k : κ) (v : υ) (l : List (κ × υ)) :
    (setEntries k v l).map Prod.fst =
      if k ∈ l.map Prod.fst then l.map Prod.fst else l.map Prod.fst ++ [k] := by
  induction l with
  | nil => simp [setEntries]
  | cons kv rest ih =>
    unfold setEntries
    by_cases h : kv.1 = k
    · simp [h]
    · have h2 : ¬ k = kv.1 := fun e => h e.symm
      simp only [h, if_false, List.map_cons, ih, List.mem_cons, h2, false_or]
      split_ifs <;> simp

/-- Reading a key just assigned. -/
theorem GoMap.get?_set_self {κ υ : Type} [DecidableEq κ] (m : GoMap κ υ) (k : κ) (v : υ) :
    (m.set k v).get? k = some v := by
  simp [GoMap.get?, GoMap.set, setEntries_find_self]

/-- Reading another key than the one just assigned. -/
theorem GoMap.get?_set_other {κ υ : Type} [DecidableEq κ] (m : GoMap κ υ) (k k2 : κ) (v : υ)
    (hne : k2 ≠ k) : (m.set k v).get? k2 = m.get? k2 := by
  simp [GoMap.get?, GoMap.set, setEntries_find_other k k2 v _ hne]

/-- An assignment keeps the keys distinct. -/
theorem GoMap.WF_set {κ υ : Type} [DecidableEq κ] (m : GoMap κ υ) (k : κ) (v : υ)
    (h : m.WF) : (m.set k v).WF := by
  unfold GoMap.WF GoMap.keys GoMap.set at *
  rw [setEntries_keys]
  split_ifs with hk
  · exact h
  · exact List.Nodup.append h (List.nodup_singleton k) (by simpa using hk)

/-- A key is present exactly when it is among the keys. -/
theorem GoMap.get?_isSome_iff {κ υ : Type} [DecidableEq κ] (m : GoMap κ υ) (k : κ) :
    (m.get? k).isSome = true ↔ k ∈ m.keys := by
  unfold GoMap.get? GoMap.keys
  simp only [Option.isSome_map', List.find?_isSome, List.mem_map]
  constructor
  · rintro ⟨x, hx, hk⟩
    exact ⟨x, hx, by simpa using hk⟩
  · rintro ⟨x, hx, hk⟩
    exact ⟨x, hx, by simpa using hk⟩

/-- The empty map has no entry. -/
theorem GoMap.get?_empty {κ υ : Type} [DecidableEq κ] (k : κ) :
    (GoMap.empty : GoMap κ υ).get? k = none := rfl

/-! ## The indexing loop of `unmarshalReport` -/

/-- The lookup table after one pass of the loop. -/
theorem indexStep_IntroMap (r : Report) (i : Intro) :
    (indexStep r i).IntroMap = r.IntroMap.set i.EpisodeId i.indexed := rfl

/-- The grouping map after one pass of the loop, read at show `s`. -/
theorem indexStep_Shows_get? (r : Report) (i : Intro) (s : String) :
    (indexStep r i).Shows.get? s =
      if s = i.Series then
        some ((r.Shows.index i.Series GoMap.empty).set i.Season
          ((r.Shows.index i.Series GoMap.empty).index i.Season [] ++ [i.indexed]))
      else r.Shows.get? s := by
  have hser : i.indexed.Series = i.Series := rfl
  have hsea : i.indexed.Season = i.Season := rfl
  unfold indexStep
  simp only [hser, hsea]
  have hinner : (if (r.Shows.get? i.Series).isSome = true then r.Shows
      else r.Shows.set i.Series GoMap.empty).index i.Series GoMap.empty =
      r.Shows.index i.Series GoMap.empty := by
    cases hg : r.Shows.get? i.Series with
    | none => simp [GoMap.index, GoMap.get?_set_self, hg]
    | some v => simp
  rw [hinner]
  by_cases hs : s = i.Series
  · subst hs
    simp [GoMap.get?_set_self]
  · simp only [hs, if_false]
    rw [GoMap.get?_set_other _ _ _ _ hs]
    cases hg : r.Shows.get? i.Series with
    | none => simp [GoMap.get?_set_other _ _ _ _ hs]
    | some v => simp

/-- The season map of show `s` after one pass of the loop. -/
theorem indexStep_Shows_index (r : Report) (i : Intro) (s : String) :
    (indexStep r i).Shows.index s GoMap.empty =
      if s = i.Series then (r.Shows.index i.Series GoMap.empty).set i.Season
        ((r.Shows.index i.Series GoMap.empty).index i.Season [] ++ [i.indexed])
      else r.Shows.index s GoMap.empty := by
  have h : (indexStep r i).Shows.index s GoMap.empty =
      ((indexStep r i).Shows.get? s).getD GoMap.empty := rfl
  rw [h, indexStep_Shows_get?]
  split_ifs <;> rfl

/-- One pass of the loop keeps the keys of the grouping map distinct. -/
theorem indexStep_Shows_WF (r : Report) (i : Intro) (h : r.Shows.WF) :
    (indexStep r i).Shows.WF := by
  unfold indexStep
  simp only []
  apply GoMap.WF_set
  split_ifs
  · exact h
  · exact GoMap.WF_set _ _ _ h

/-- One pass of the loop keeps the loop invariant. -/
theorem LoopInvariant.step (done : List Intro) (r : Report) (i : Intro)
    (h : LoopInvariant done r) : LoopInvariant (done ++ [i]) (indexStep r i) := by
  obtain ⟨hmap, hshows, hbucket, wf1, wf2, wf3⟩ := h
  have hidx : ∀ s n, (r.Shows.index s GoMap.empty).index n [] =
      (done.filter (fun i => decide (i.Series = s ∧ i.Season = n))).map Intro.indexed := by
    intro s n
    unfold GoMap.index at hbucket ⊢
    rw [hbucket s n]
    split_ifs with he
    · rw [he]
      rfl
    · rfl
  refine ⟨?_, ?_, ?_, ?_, ?_, ?_⟩
  · intro k
    rw [indexStep_IntroMap, List.filter_append]
    by_cases hk : i.EpisodeId = k
    · subst hk
      rw [GoMap.get?_set_self]
      simp [List.filter_cons]
    · have hk2 : k ≠ i.EpisodeId := fun e => hk e.symm
      rw [GoMap.get?_set_other _ _ _ _ hk2, hmap k]
      simp [List.filter_cons, hk]
  · intro s
    rw [indexStep_Shows_get?]
    by_cases hs : s = i.Series
    · subst hs
      simp only [if_true, Option.isSome_some, true_iff]
      exact ⟨i, by simp, rfl⟩
    · have hs2 : ¬ i.Series = s := fun e => hs e.symm
      simp only [hs, if_false, hshows s, List.mem_append, List.mem_singleton]
      constructor
      · rintro ⟨x, hx, e⟩
        exact ⟨x, Or.inl hx, e⟩
      · rintro ⟨x, hx | hx, e⟩
        · exact ⟨x, hx, e⟩
        · exact absurd (hx ▸ e) hs2
  · intro s n
    have hget := indexStep_Shows_index r i s
    rw [hget, List.filter_append]
    by_cases hs : s = i.Series
    · subst hs
      simp only [if_true]
      by_cases hn : n = i.Season
      · subst hn
        rw [GoMap.get?_set_self, hidx]
        simp [List.filter_cons]
      · have hn2 : ¬ i.Season = n := fun e => hn e.symm
        rw [GoMap.get?_set_other _ _ _ _ hn, hbucket]
        simp [List.filter_cons, hn2]
    · have hs2 : ¬ i.Series = s := fun e => hs e.symm
      simp only [hs, if_false, hbucket]
      simp [List.filter_cons, hs2]
  · rw [indexStep_IntroMap]
    exact GoMap.WF_set _ _ _ wf1
  · exact indexStep_Shows_WF _ _ wf2
  · intro s
    have hget := indexStep_Shows_index r i s
    rw [hget]
    split_ifs
    · exact GoMap.WF_set _ _ _ (wf3 _)
    · exact wf3 s

/-- Running the loop over `rest` from a state that satisfies the invariant for `done`. -/
theorem LoopInvariant.foldl (rest : List Intro) :
    ∀ (done : List Intro) (r : Report), LoopInvariant done r →
      LoopInvariant (done ++ rest) (rest.foldl indexStep r) := by
  induction rest with
  | nil =>
    intro done r h
    simpa using h
  | cons i rest ih =>
    intro done r h
    have := ih (done ++ [i]) (indexStep r i) (LoopInvariant.step done r i h)
    simpa using this

/-- The loaded report satisfies the loop invariant for all its records. -/
theorem unmarshalReport_invariant (path : String) (decoded : Report) :
    LoopInvariant decoded.Intros (unmarshalReport path decoded) := by
  have h0 : LoopInvariant []
      { decoded with Path := path, Shows := GoMap.empty, IntroMap := GoMap.empty } := by
    refine ⟨?_, ?_, ?_, ?_, ?_, ?_⟩
    · intro k
      rfl
    · intro s
      simp [GoMap.get?_empty]
    · intro s n
      rfl
    · exact List.nodup_nil
    · exact List.nodup_nil
    · intro s
      exact List.nodup_nil
  have := LoopInvariant.foldl decoded.Intros [] _ h0
  simpa [unmarshalReport] using this

/-- Concatenating, over a duplicate-free list of keys that covers the list, the sublists of
the elements with each key rearranges the list. -/
theorem flatMap_filter_perm {β : Type} (g : β → Int) (ks : List Int) :
    ∀ (L : List β), ks.Nodup → (∀ x ∈ L, g x ∈ ks) →
      (ks.flatMap (fun n => L.filter (fun x => decide (g x = n)))).Perm L := by
  induction ks with
  | nil =>
    intro L _ hall
    cases L with
    | nil => simp
    | cons x xs => simpa using hall x (by simp)
  | cons k ks ih =>
    intro L hnd hall
    obtain ⟨hk, hnd2⟩ := List.nodup_cons.mp hnd
    have hrest : ks.flatMap (fun n => L.filter (fun x => decide (g x = n))) =
        ks.flatMap (fun n => (L.filter (fun x => !decide (g x = k))).filter
          (fun x => decide (g x = n))) := by
      apply List.flatMap_congr
      intro n hn
      rw [List.filter_filter]
      apply List.filter_congr
      intro x _
      by_cases hx : g x = n
      · have hne : g x ≠ k := fun e => hk (e ▸ hx ▸ hn)
        have hk2 : decide (g x = k) = false := by simpa using hne
        simp [hk2]
      · simp [hx]
    have hih := ih (L.filter (fun x => !decide (g x = k))) hnd2 (by
      intro x hx
      rw [List.mem_filter] at hx
      have h1 := hall x hx.1
      have h2 : g x ≠ k := by simpa using hx.2
      rcases List.mem_cons.mp h1 with h | h
      · exact absurd h h2
      · exact h)
    rw [List.flatMap_cons, hrest]
    exact (List.Perm.append_left _ hih).trans (List.filter_append_perm _ L)


/-- C6. For every list of decoded records and every identifier `k` (the empty string
included), the lookup table built by the indexing loop of `unmarshalReport` has an entry for
`k` exactly when some record has `EpisodeId = k`, and the entry is the last such record
(with its derived display fields); the keys of the table are distinct, and an empty list of
records yields an empty lookup table and an empty grouping map. -/
theorem unmarshalReport_IntroMap (path : String) (decoded : Report) (k : String) :
    (((unmarshalReport path decoded).IntroMap.get? k).isSome = true ↔
      ∃ i ∈ decoded.Intros, i.EpisodeId = k) ∧
    (unmarshalReport path decoded).IntroMap.get? k =
      ((decoded.Intros.filter (fun i => decide (i.EpisodeId = k))).getLast?).map
        Intro.indexed ∧
    (unmarshalReport path decoded).IntroMap.WF ∧
    (decoded.Intros = [] →
      (unmarshalReport path decoded).IntroMap = GoMap.empty ∧
      (unmarshalReport path decoded).Shows = GoMap.empty) := by
  obtain ⟨hmap, -, -, wf1, -, -⟩ := unmarshalReport_invariant path decoded
  refine ⟨?_, hmap k, wf1, ?_⟩
  · rw [hmap k]
    simp only [Option.isSome_map', List.getLast?_isSome, ne_eq, List.filter_eq_nil_iff,
      decide_eq_true_eq, not_forall, not_not]
    constructor
    · rintro ⟨x, hx, e⟩
      exact ⟨x, hx, e⟩
    · rintro ⟨x, hx, e⟩
      exact ⟨x, hx, e⟩
  · intro hnil
    simp [unmarshalReport, hnil]

/-- C5. For every list of decoded records, show name `s` and season number `n`, the bucket
`Shows[s][n]` built by the indexing loop of `unmarshalReport` is the sublist of the records
with `Series = s` and `Season = n`, in input order, each with its derived display fields; a
show key (a season key) exists exactly when some record has it; and concatenating the
buckets of `s` over its season keys, in map order or sorted by `templateSortSeason`,
rearranges exactly the records whose show is `s`. -/
theorem unmarshalReport_Shows (path : String) (decoded : Report) (s : String) (n : Int) :
    ((unmarshalReport path decoded).Shows.index s GoMap.empty).index n [] =
      (decoded.Intros.filter (fun i => decide (i.Series = s ∧ i.Season = n))).map
        Intro.indexed ∧
    (((unmarshalReport path decoded).Shows.get? s).isSome = true ↔
      ∃ i ∈ decoded.Intros, i.Series = s) ∧
    ((((unmarshalReport path decoded).Shows.index s GoMap.empty).get? n).isSome = true ↔
      ∃ i ∈ decoded.Intros, i.Series = s ∧ i.Season = n) ∧
    (unmarshalReport path decoded).Shows.WF ∧
    ((unmarshalReport path decoded).Shows.index s GoMap.empty).WF ∧
    (((unmarshalReport path decoded).Shows.index s GoMap.empty).keys.flatMap
      (fun n => ((unmarshalReport path decoded).Shows.index s GoMap.empty).index n [])).Perm
      ((decoded.Intros.filter (fun i => decide (i.Series = s))).map Intro.indexed) ∧
    ((templateSortSeason ((unmarshalReport path decoded).Shows.index s GoMap.empty)).flatMap
      (fun n => ((unmarshalReport path decoded).Shows.index s GoMap.empty).index n [])).Perm
      ((decoded.Intros.filter (fun i => decide (i.Series = s))).map Intro.indexed) := by
  obtain ⟨-, hshows, hbucket, -, wf2, wf3⟩ := unmarshalReport_invariant path decoded
  have hidx : ∀ n, ((unmarshalReport path decoded).Shows.index s GoMap.empty).index n [] =
      (decoded.Intros.filter (fun i => decide (i.Series = s ∧ i.Season = n))).map
        Intro.indexed := by
    intro n
    have h : ((unmarshalReport path decoded).Shows.index s GoMap.empty).index n [] =
      (((unmarshalReport path decoded).Shows.index s GoMap.empty).get? n).getD [] := rfl
    rw [h, hbucket s n]
    split_ifs with he
    · rw [he]
      rfl
    · rfl
  have hsome : ∀ n,
      (((unmarshalReport path decoded).Shows.index s GoMap.empty).get? n).isSome = true ↔
        ∃ i ∈ decoded.Intros, i.Series = s ∧ i.Season = n := by
    intro n
    rw [hbucket s n]
    split_ifs with he
    · simp only [Option.isSome_none, Bool.false_eq_true, false_iff]
      rintro ⟨x, hx, e⟩
      have : x ∈ decoded.Intros.filter (fun i => decide (i.Series = s ∧ i.Season = n)) := by
        simp [List.mem_filter, hx, e]
      rw [he] at this
      simp at this
    · simp only [Option.isSome_some, true_iff]
      obtain ⟨x, hx⟩ := List.exists_mem_of_ne_nil _ he
      rw [List.mem_filter] at hx
      exact ⟨x, hx.1, by simpa using hx.2⟩
  have hrew : ∀ n, ((unmarshalReport path decoded).Shows.index s GoMap.empty).index n [] =
      ((decoded.Intros.filter (fun i => decide (i.Series = s))).map Intro.indexed).filter
        (fun x => decide (x.Season = n)) := by
    intro n
    rw [hidx n, List.filter_map, List.filter_filter]
    congr 1
    apply List.filter_congr
    intro x _
    have hsea : x.indexed.Season = x.Season := rfl
    by_cases h1 : x.Series = s <;> by_cases h2 : x.Season = n <;> simp [h1, h2, hsea]
  have hperm : (((unmarshalReport path decoded).Shows.index s GoMap.empty).keys.flatMap
      (fun n => ((unmarshalReport path decoded).Shows.index s GoMap.empty).index n [])).Perm
      ((decoded.Intros.filter (fun i => decide (i.Series = s))).map Intro.indexed) := by
    simp only [hrew]
    apply flatMap_filter_perm (fun x : Intro => x.Season) _ _ (wf3 s)
    intro x hx
    rw [List.mem_map] at hx
    obtain ⟨y, hy, rfl⟩ := hx
    rw [List.mem_filter] at hy
    rw [← GoMap.get?_isSome_iff, hsome]
    exact ⟨y, hy.1, by simpa using hy.2, rfl⟩
  refine ⟨hidx n, hshows s, hsome n, wf2, wf3 s, hperm, ?_⟩
  exact (List.Perm.flatMap_right _ (List.perm_insertionSort _ _)).trans hperm

/-- C7. For every grouping map (keys distinct), `templateSortShows` returns its show names
and `templateSortSeason` the season numbers of a show: each result holds every key exactly
once and nothing else, and is in ascending order (lexicographic for names, numeric for
seasons, so negative seasons precede 0). -/
theorem templateSort_sorted_keys (shows : GoMap String Seasons) (show_ : Seasons)
    (hShows : shows.WF) (hShow : show_.WF) :
    ((templateSortShows shows).Perm shows.keys ∧
      (templateSortShows shows).Nodup ∧
      (∀ k, k ∈ templateSortShows shows ↔ (shows.get? k).isSome = true) ∧
      (templateSortShows shows).Sorted (fun a b => a < b)) ∧
    ((templateSortSeason show_).Perm show_.keys ∧
      (templateSortSeason show_).Nodup ∧
      (∀ n, n ∈ templateSortSeason show_ ↔ (show_.get? n).isSome = true) ∧
      (templateSortSeason show_).Sorted (fun a b => a < b)) := by
  have p1 : (templateSortShows shows).Perm shows.keys := List.perm_insertionSort _ _
  have p2 : (templateSortSeason show_).Perm show_.keys := List.perm_insertionSort _ _
  have n1 : (templateSortShows shows).Nodup := p1.nodup_iff.mpr hShows
  have n2 : (templateSortSeason show_).Nodup := p2.nodup_iff.mpr hShow
  have s1 : (templateSortShows shows).Sorted (fun a b => a ≤ b) :=
    List.sorted_insertionSort _ _
  have s2 : (templateSortSeason show_).Sorted (fun a b => a ≤ b) :=
    List.sorted_insertionSort _ _
  refine ⟨⟨p1, n1, ?_, s1.lt_of_le n1⟩, ⟨p2, n2, ?_, s2.lt_of_le n2⟩⟩
  · intro k
    rw [GoMap.get?_isSome_iff]
    exact p1.mem_iff
  · intro k
    rw [GoMap.get?_isSome_iff]
    exact p2.mem_iff

/-- Witness of C6: in the sample report the identifier `a` occurs twice and the lookup
table keeps the later record, of show `T`; `zz` has no entry; a record with the empty
identifier is stored under the empty string; and a report without records gets an empty
table. -/
theorem unmarshalReport_IntroMap_witness :
    (unmarshalReport "r.json" Report.sampleDecoded).IntroMap.get? "a" =
      some (Intro.sampleEpisode "a" "T" 2).indexed ∧
    (unmarshalReport "r.json" Report.sampleDecoded).IntroMap.get? "zz" = none ∧
    (unmarshalReport "r.json"
      { Report.blank with Intros := [Intro.sampleEpisode "" "S" 1] }).IntroMap.get? "" =
      some (Intro.sampleEpisode "" "S" 1).indexed ∧
    (unmarshalReport "r.json" Report.blank).IntroMap = GoMap.empty :=
  ⟨((unmarshalReport_IntroMap "r.json" Report.sampleDecoded "a").2.1).trans (by decide),
   ((unmarshalReport_IntroMap "r.json" Report.sampleDecoded "zz").2.1).trans (by decide),
   ((unmarshalReport_IntroMap "r.json"
      { Report.blank with Intros := [Intro.sampleEpisode "" "S" 1] } "").2.1).trans
      (by decide),
   ((unmarshalReport_IntroMap "r.json" Report.blank "a").2.2.2 rfl).1⟩

/-- Witness of C5: in the sample report the bucket of season 2 of show `S` holds the
episodes `a` and `c` in input order, and show `U` has no key. -/
theorem unmarshalReport_Shows_witness :
    ((unmarshalReport "r.json" Report.sampleDecoded).Shows.index "S" GoMap.empty).index 2 [] =
      [(Intro.sampleEpisode "a" "S" 2).indexed, (Intro.sampleEpisode "c" "S" 2).indexed] ∧
    ((unmarshalReport "r.json" Report.sampleDecoded).Shows.get? "U").isSome = false ∧
    templateSortSeason ((unmarshalReport "r.json" Report.sampleDecoded).Shows.index "S"
      GoMap.empty) = [-1, 2] :=
  ⟨((unmarshalReport_Shows "r.json" Report.sampleDecoded "S" 2).1).trans (by decide),
   by decide, by decide⟩

/-- Witness of C7: the show names `b`, `a`, `B` come out as `B`, `a`, `b`, and the seasons
0, -1, 2 as -1, 0, 2. -/
theorem templateSort_sorted_keys_witness :
    (templateSortShows ⟨[("b", GoMap.empty), ("a", GoMap.empty), ("B", GoMap.empty)]⟩).Sorted
      (fun a b => a < b) ∧
    templateSortShows ⟨[("b", GoMap.empty), ("a", GoMap.empty), ("B", GoMap.empty)]⟩
      = ["B", "a", "b"] ∧
    (templateSortSeason ⟨[(0, []), (-1, []), (2, [])]⟩).Perm [0, -1, 2] ∧
    templateSortSeason ⟨[(0, []), (-1, []), (2, [])]⟩ = [-1, 0, 2] :=
  ⟨(templateSort_sorted_keys
      ⟨[("b", GoMap.empty), ("a", GoMap.empty), ("B", GoMap.empty)]⟩
      ⟨[(0, []), (-1, []), (2, [])]⟩ (by decide) (by decide)).1.2.2.2,
   by
    simp only [templateSortShows, sortStrings, GoMap.keys, List.insertionSort,
      List.orderedInsert, String.le_iff_toList_le, List.map, List.foldr]
    decide,
   (templateSort_sorted_keys
      ⟨[("b", GoMap.empty), ("a", GoMap.empty), ("B", GoMap.empty)]⟩
      ⟨[(0, []), (-1, []), (2, [])]⟩ (by decide) (by decide)).2.1,
   by decide⟩

/-! ## The duration loop of `generateReport` -/

/-- The loop of `generateReport` after the indices below `k`: the first `k` records carry the
recomputed duration, the others are as decoded. -/
theorem recomputeDurations_upTo (intros : List Intro) (k : Nat) (hk : k ≤ intros.length) :
    (List.range k).foldl recomputeDurationAt intros =
      (intros.take k).map Intro.recomputed ++ intros.drop k := by
  induction k with
  | zero => simp
  | succ k ih =>
    have hk2 : k < intros.length := hk
    rw [List.range_succ, List.foldl_append, ih (Nat.le_of_lt hk2)]
    simp only [List.foldl_cons, List.foldl_nil, recomputeDurationAt]
    have hlen : ((intros.take k).map Intro.recomputed).length = k := by
      simp [Nat.min_eq_left (Nat.le_of_lt hk2)]
    have hget : ((intros.take k).map Intro.recomputed ++ intros.drop k)[k]? =
        some (intros.get ⟨k, hk2⟩) := by
      rw [List.getElem?_append_right (by omega), hlen]
      simp [List.getElem?_drop, List.getElem?_eq_getElem hk2]
    rw [hget]
    simp only []
    rw [List.set_append_right _ _ (by omega), hlen, Nat.sub_self,
      List.drop_eq_getElem_cons hk2, List.set_cons_zero]
    have htake : List.take (k + 1) intros = List.take k intros ++ [intros[k]] := by
      rw [List.take_succ, List.getElem?_eq_getElem hk2]
      rfl
    rw [htake, List.map_append, List.append_assoc]
    rfl

/-- The loop of `generateReport` recomputes the duration of every record. -/
theorem recomputeDurations_eq_map (intros : List Intro) :
    recomputeDurations intros = intros.map Intro.recomputed := by
  unfold recomputeDurations
  rw [recomputeDurations_upTo intros intros.length (Nat.le_refl _)]
  simp

/-- C14. For every list of decoded records the duration loop of `generateReport` yields a
list of the same length in which the record at each index is the decoded record at that
index with `Duration` set to its `IntroEnd - IntroStart` (the `float32` difference) and every
other field unchanged; two lists that differ only in the `Duration` values they carry give
the same result. -/
theorem recomputeDurations_spec (intros : List Intro) :
    (recomputeDurations intros).length = intros.length ∧
    (∀ (i : Nat) (intro : Intro), intros[i]? = some intro →
      (recomputeDurations intros)[i]? =
        some { intro with Duration := Fp.sub binary32 intro.IntroEnd intro.IntroStart }) ∧
    (∀ (i : Nat) (intro : Intro), (recomputeDurations intros)[i]? = some intro →
      intro.Duration = Fp.sub binary32 intro.IntroEnd intro.IntroStart) ∧
    (∀ (other : List Intro),
      other.map (fun intro => { intro with Duration := Fp.zero }) =
        intros.map (fun intro => { intro with Duration := Fp.zero }) →
      recomputeDurations other = recomputeDurations intros) := by
  rw [recomputeDurations_eq_map]
  refine ⟨by simp, ?_, ?_, ?_⟩
  · intro i intro h
    rw [List.getElem?_map, h]
    rfl
  · intro i intro h
    rw [List.getElem?_map] at h
    cases hi : intros[i]? with
    | none => simp [hi] at h
    | some x =>
      simp only [hi, Option.map_some', Option.some.injEq] at h
      rw [← h]
      rfl
  · intro other h
    rw [recomputeDurations_eq_map]
    have hz : ∀ l : List Intro, l.map Intro.recomputed =
        (l.map (fun intro => { intro with Duration := Fp.zero })).map Intro.recomputed := by
      intro l
      rw [List.map_map]
      rfl
    rw [hz other, hz intros, h]

/-- Witness of C14: two decoded records, one carrying the duration 999 and one with end
before start, come out in the same order with durations 20 and -2. -/
theorem recomputeDurations_spec_witness :
    recomputeDurations
        [{ Intro.sample "a" 10 30 true with Duration := Fp.ofInt binary32 999 },
          Intro.sample "b" 7 5 false] =
      [{ Intro.sample "a" 10 30 true with Duration := Fp.ofInt binary32 20 },
        { Intro.sample "b" 7 5 false with Duration := Fp.ofInt binary32 (-2) }] ∧
    (recomputeDurations
        [{ Intro.sample "a" 10 30 true with Duration := Fp.ofInt binary32 999 },
          Intro.sample "b" 7 5 false])[0]? =
      some { Intro.sample "a" 10 30 true with Duration := Fp.ofInt binary32 20 } :=
  ⟨by decide,
   ((recomputeDurations_spec
      [{ Intro.sample "a" 10 30 true with Duration := Fp.ofInt binary32 999 },
        Intro.sample "b" 7 5 false]).2.1 0
      { Intro.sample "a" 10 30 true with Duration := Fp.ofInt binary32 999 } rfl).trans
      (by decide)⟩

/-! ## More facts of the floating-point embedding -/

/-- A number below `2^k` has at most `k` binary digits. -/
theorem bitLengthAux_le (fuel : Nat) :
    ∀ (n k : Nat), n < 2 ^ k → bitLengthAux fuel n ≤ k := by
  induction fuel with
  | zero =>
    intro n k _
    simp [bitLengthAux]
  | succ fuel ih =>
    intro n k h
    unfold bitLengthAux
    by_cases hn : n = 0
    · simp [hn]
    · simp only [hn, if_false]
      cases k with
      | zero =>
        simp at h
        exact absurd h hn
      | succ k =>
        have h2 : n / 2 < 2 ^ k := by
          rw [Nat.div_lt_iff_lt_mul (by decide)]
          rw [Nat.pow_succ] at h
          exact h
        exact Nat.succ_le_succ (ih _ _ h2)

/-- A number below `2^k` has at most `k` binary digits. -/
theorem bitLength_le (n k : Nat) (h : n < 2 ^ k) : bitLength n ≤ k :=
  bitLengthAux_le n n k h

/-- Converting a finite `float32` datum to `float64` gives a finite datum. -/
theorem Fp.toFloat64_isFinite_of_isFloat32 (x : Fp) (h : x.isFloat32 = true) :
    (Fp.toFloat64 x).isFinite = true := by
  cases x with
  | nan => simp [Fp.isFloat32] at h
  | inf s => simp [Fp.isFloat32] at h
  | fin s m e =>
    simp only [Fp.isFloat32, Bool.and_eq_true, decide_eq_true_eq] at h
    obtain ⟨⟨hm, he1⟩, he2⟩ := h
    unfold Fp.toFloat64 Fp.round
    by_cases hm0 : m = 0
    · simp [hm0, Fp.isFinite]
    · simp only [hm0, if_false]
      have hbl : bitLength m ≤ 24 := bitLength_le m 24 hm
      have hq : binary64.quantum m e ≤ e := by
        simp only [FloatFormat.quantum, FloatFormat.emin, binary64]
        omega
      have hemax : binary64.emax = 1023 := rfl
      generalize binary64.quantum m e = q at hq
      simp only [hq, if_true]
      have hover : ¬ (binary64.emax + 1 < (bitLength (m * 2 ^ (e - q).toNat) : Int) + q) := by
        have hlt : m * 2 ^ (e - q).toNat < 2 ^ (24 + (e - q).toNat) := by
          rw [Nat.pow_add]
          exact Nat.mul_lt_mul_of_pos_right hm (Nat.two_pow_pos _)
        have hb := bitLength_le _ _ hlt
        rw [hemax]
        omega
      simp only [hover, if_false]
      split_ifs <;> rfl

/-- The difference of a finite float with itself is a zero. -/
theorem Fp.abs_sub_self (f : FloatFormat) (y : Fp) (h : y.isFinite = true) :
    Fp.abs (Fp.sub f y y) = .fin false 0 0 := by
  cases y with
  | nan => simp [Fp.isFinite] at h
  | inf s => simp [Fp.isFinite] at h
  | fin s m e =>
    have h0 : (alignInts s m e s m e).1 - (alignInts s m e s m e).2 = 0 := by
      simp [alignInts]
    simp [Fp.sub, Fp.abs, h0]

/-- A timestamp whose `float64` conversion is finite is similar to itself. -/
theorem similar_self (x : Fp) (h : (Fp.toFloat64 x).isFinite = true) :
    similar 5 x x = true := by
  unfold similar
  simp only [Fp.abs_sub_self binary64 _ h]
  decide

/-- The magnitude of a rounded finite datum does not depend on its sign. -/
theorem Fp.abs_round_fin (f : FloatFormat) (s t : Bool) (m : Nat) (e : Int) :
    Fp.abs (Fp.round f (.fin s m e)) = Fp.abs (Fp.round f (.fin t m e)) := by
  unfold Fp.round
  simp only []
  split_ifs <;> rfl

/-- Exchanging the operands of a difference keeps its absolute value. -/
theorem Fp.abs_sub_comm (f : FloatFormat) (x y : Fp) :
    Fp.abs (Fp.sub f x y) = Fp.abs (Fp.sub f y x) := by
  cases x with
  | nan => cases y <;> rfl
  | inf s =>
    cases y with
    | nan => rfl
    | inf t => cases s <;> cases t <;> rfl
    | fin t n e2 => rfl
  | fin s m e =>
    cases y with
    | nan => rfl
    | inf t => rfl
    | fin t n e2 =>
      simp only [Fp.sub]
      rw [alignInts_swap s m e t n e2]
      simp only []
      by_cases hd : (alignInts s m e t n e2).1 - (alignInts s m e t n e2).2 = 0
      · have hd2 : (alignInts s m e t n e2).2 - (alignInts s m e t n e2).1 = 0 := by omega
        simp [hd, hd2, Fp.abs]
      · have hd2 : ¬ (alignInts s m e t n e2).2 - (alignInts s m e t n e2).1 = 0 := by omega
        simp only [hd, hd2, if_false]
        have hn : ((alignInts s m e t n e2).2 - (alignInts s m e t n e2).1).natAbs =
            ((alignInts s m e t n e2).1 - (alignInts s m e t n e2).2).natAbs := by omega
        rw [hn, min_comm e2 e]
        exact Fp.abs_round_fin _ _ _ _ _

/-- The closure `similar` gives the same answer with its two timestamps exchanged. -/
theorem similar_comm (tolerance : Int) (a b : Fp) :
    similar tolerance a b = similar tolerance b a := by
  unfold similar
  simp only [Fp.abs_sub_comm binary64 (Fp.toFloat64 b) (Fp.toFloat64 a)]

/-! ## Further properties of `templateCompareEpisodes` -/

/-- A record found by a lookup is an entry of the map. -/
theorem GoMap.mem_of_get? {κ υ : Type} [DecidableEq κ] (m : GoMap κ υ) (k : κ) (v : υ)
    (h : m.get? k = some v) : (k, v) ∈ m.entries := by
  unfold GoMap.get? at h
  cases hf : m.entries.find? (fun kv => decide (kv.1 = k)) with
  | none => simp [hf] at h
  | some kv =>
    simp only [hf, Option.map_some', Option.some.injEq] at h
    have hmem := List.mem_of_find?_eq_some hf
    have hk : kv.1 = k := by simpa using List.find?_some hf
    have hkv : kv = (k, v) := by
      cases kv
      simp_all
    rw [← hkv]
    exact hmem

/-- Counterexample to C15 as stated: for a record found only in the old report the tag is
`only_previous` and the explanation returned is spelled with a capital letter, so it is not
the string the specification pairs with that tag. -/
theorem templateCompareEpisodes_explanation_not_spec_string :
    (templateCompareEpisodes "e1" ⟨Report.ofIntroMap [Intro.sample "e1" 30 50 true],
        Report.ofIntroMap []⟩).WarningShort = "only_previous" ∧
    (templateCompareEpisodes "e1" ⟨Report.ofIntroMap [Intro.sample "e1" 30 50 true],
        Report.ofIntroMap []⟩).Warning =
      "Introduction found in previous report, but not the current one" ∧
    (templateCompareEpisodes "e1" ⟨Report.ofIntroMap [Intro.sample "e1" 30 50 true],
        Report.ofIntroMap []⟩).Warning ≠
      "introduction found in previous report, but not the current one" ∧
    (templateCompareEpisodes "e1" ⟨Report.ofIntroMap [Intro.sample "e1" 30 50 true],
        Report.ofIntroMap []⟩).Warning ≠ specExplanation "only_previous" := by
  decide

/-- C15, amended. For every input the tag is one of `only_previous`, `improvement`,
`missing`, `different`, `okay`, and the explanation returned is the string the specification
pairs with that tag with its first letter in upper case: "Introduction found in previous
report, but not the current one", "New introduction discovered", "No introduction has ever
been found for this episode", "Timestamps differ by more than 5 seconds", "Okay". -/
theorem templateCompareEpisodes_explanation (id : String) (reports : TemplateReportData) :
    (templateCompareEpisodes id reports).WarningShort ∈
      ["only_previous", "improvement", "missing", "different", "okay"] ∧
    (templateCompareEpisodes id reports).Warning =
      (specExplanation (templateCompareEpisodes id reports).WarningShort).capitalize ∧
    ((templateCompareEpisodes id reports).WarningShort = "only_previous" →
      (templateCompareEpisodes id reports).Warning =
        "Introduction found in previous report, but not the current one") ∧
    ((templateCompareEpisodes id reports).WarningShort = "improvement" →
      (templateCompareEpisodes id reports).Warning = "New introduction discovered") ∧
    ((templateCompareEpisodes id reports).WarningShort = "missing" →
      (templateCompareEpisodes id reports).Warning =
        "No introduction has ever been found for this episode") ∧
    ((templateCompareEpisodes id reports).WarningShort = "different" →
      (templateCompareEpisodes id reports).Warning =
        "Timestamps differ by more than 5 seconds") ∧
    ((templateCompareEpisodes id reports).WarningShort = "okay" →
      (templateCompareEpisodes id reports).Warning = "Okay") := by
  have h : ((templateCompareEpisodes id reports).WarningShort,
      (templateCompareEpisodes id reports).Warning) ∈
      [("only_previous", "Introduction found in previous report, but not the current one"),
        ("improvement", "New introduction discovered"),
        ("missing", "No introduction has ever been found for this episode"),
        ("different", "Timestamps differ by more than 5 seconds"),
        ("okay", "Okay")] := by
    unfold templateCompareEpisodes
    simp only []
    split_ifs <;> simp only [List.mem_cons, Prod.mk.injEq] <;> decide
  generalize (templateCompareEpisodes id reports).WarningShort = t at h ⊢
  generalize (templateCompareEpisodes id reports).Warning = w at h ⊢
  simp only [List.mem_cons, Prod.mk.injEq, List.mem_singleton, List.not_mem_nil, or_false] at h
  rcases h with ⟨rfl, rfl⟩ | ⟨rfl, rfl⟩ | ⟨rfl, rfl⟩ | ⟨rfl, rfl⟩ | ⟨rfl, rfl⟩ <;>
    decide

/-- Witness of C15, amended: a valid pair 30/50 against 40/50 is `different` with the
explanation "Timestamps differ by more than 5 seconds". -/
theorem templateCompareEpisodes_explanation_witness :
    (templateCompareEpisodes "e1" ⟨Report.ofIntroMap [Intro.sample "e1" 30 50 true],
        Report.ofIntroMap [Intro.sample "e1" 40 50 true]⟩).Warning =
      "Timestamps differ by more than 5 seconds" :=
  (templateCompareEpisodes_explanation "e1" ⟨Report.ofIntroMap [Intro.sample "e1" 30 50 true],
      Report.ofIntroMap [Intro.sample "e1" 40 50 true]⟩).2.2.2.2.2.1 (by decide)

/-- C17. Comparing a lookup table `M` whose timestamps are finite `float32` values with
itself: the tag is `okay` when `M` holds a valid record for the identifier and `missing`
otherwise; it is never `different`, `only_previous` or `improvement`. -/
theorem templateCompareEpisodes_self (id : String) (M : GoMap String Intro)
    (reports : TemplateReportData)
    (hOld : reports.OldReport.IntroMap = M) (hNew : reports.NewReport.IntroMap = M)
    (hFinite : ∀ kv ∈ M.entries,
      kv.2.IntroStart.isFloat32 = true ∧ kv.2.IntroEnd.isFloat32 = true) :
    ((∃ r, M.get? id = some r ∧ r.Valid = true) →
      (templateCompareEpisodes id reports).WarningShort = "okay") ∧
    ((¬ ∃ r, M.get? id = some r ∧ r.Valid = true) →
      (templateCompareEpisodes id reports).WarningShort = "missing") ∧
    (templateCompareEpisodes id reports).WarningShort ≠ "different" ∧
    (templateCompareEpisodes id reports).WarningShort ≠ "only_previous" ∧
    (templateCompareEpisodes id reports).WarningShort ≠ "improvement" := by
  have hcases : ((∃ r, M.get? id = some r ∧ r.Valid = true) ∧
        (templateCompareEpisodes id reports).WarningShort = "okay") ∨
      ((¬ ∃ r, M.get? id = some r ∧ r.Valid = true) ∧
        (templateCompareEpisodes id reports).WarningShort = "missing") := by
    unfold templateCompareEpisodes
    rw [hOld, hNew]
    cases hg : M.get? id with
    | none =>
      right
      simp [GoMap.index, hg, Intro.zero]
    | some r =>
      cases hv : r.Valid with
      | false =>
        right
        simp [GoMap.index, hg, hv]
      | true =>
        left
        obtain ⟨hs, he⟩ := hFinite (id, r) (GoMap.mem_of_get? M id r hg)
        have h1 := similar_self r.IntroStart (Fp.toFloat64_isFinite_of_isFloat32 _ hs)
        have h2 := similar_self r.IntroEnd (Fp.toFloat64_isFinite_of_isFloat32 _ he)
        simp [GoMap.index, hg, hv, h1, h2]
  rcases hcases with ⟨h1, h2⟩ | ⟨h1, h2⟩
  · exact ⟨fun _ => h2, fun h => absurd h1 h, by rw [h2]; decide, by rw [h2]; decide,
      by rw [h2]; decide⟩
  · exact ⟨fun h => absurd h h1, fun _ => h2, by rw [h2]; decide, by rw [h2]; decide,
      by rw [h2]; decide⟩

/-- Witness of C17: a table holding a valid record for `e1` and an invalid one for `e2`,
compared with itself, gives `okay` for `e1` and `missing` for `e2` and for the absent `e3`. -/
theorem templateCompareEpisodes_self_witness :
    (templateCompareEpisodes "e1"
      ⟨Report.ofIntroMap [Intro.sample "e1" 30 50 true, Intro.sample "e2" 0 0 false],
        Report.ofIntroMap [Intro.sample "e1" 30 50 true, Intro.sample "e2" 0 0 false]⟩
      ).WarningShort = "okay" ∧
    (templateCompareEpisodes "e2"
      ⟨Report.ofIntroMap [Intro.sample "e1" 30 50 true, Intro.sample "e2" 0 0 false],
        Report.ofIntroMap [Intro.sample "e1" 30 50 true, Intro.sample "e2" 0 0 false]⟩
      ).WarningShort = "missing" ∧
    (templateCompareEpisodes "e3"
      ⟨Report.ofIntroMap [Intro.sample "e1" 30 50 true, Intro.sample "e2" 0 0 false],
        Report.ofIntroMap [Intro.sample "e1" 30 50 true, Intro.sample "e2" 0 0 false]⟩
      ).WarningShort = "missing" :=
  ⟨(templateCompareEpisodes_self "e1"
      ⟨[("e1", Intro.sample "e1" 30 50 true), ("e2", Intro.sample "e2" 0 0 false)]⟩
      ⟨Report.ofIntroMap [Intro.sample "e1" 30 50 true, Intro.sample "e2" 0 0 false],
        Report.ofIntroMap [Intro.sample "e1" 30 50 true, Intro.sample "e2" 0 0 false]⟩
      rfl rfl (by decide)).1 ⟨Intro.sample "e1" 30 50 true, by decide, by decide⟩,
   (templateCompareEpisodes_self "e2"
      ⟨[("e1", Intro.sample "e1" 30 50 true), ("e2", Intro.sample "e2" 0 0 false)]⟩
      ⟨Report.ofIntroMap [Intro.sample "e1" 30 50 true, Intro.sample "e2" 0 0 false],
        Report.ofIntroMap [Intro.sample "e1" 30 50 true, Intro.sample "e2" 0 0 false]⟩
      rfl rfl (by decide)).2.1 (by decide),
   (templateCompareEpisodes_self "e3"
      ⟨[("e1", Intro.sample "e1" 30 50 true), ("e2", Intro.sample "e2" 0 0 false)]⟩
      ⟨Report.ofIntroMap [Intro.sample "e1" 30 50 true, Intro.sample "e2" 0 0 false],
        Report.ofIntroMap [Intro.sample "e1" 30 50 true, Intro.sample "e2" 0 0 false]⟩
      rfl rfl (by decide)).2.1 (by decide)⟩

/-- C18. Exchanging the two collections mirrors the result: the `Old` and `New` records of
the second call are the `New` and `Old` records of the first, `only_previous` becomes
`improvement`, `improvement` becomes `only_previous`, and `missing`, `different` and `okay`
stay as they are. -/
theorem templateCompareEpisodes_swap (id : String) (A B : Report) :
    (templateCompareEpisodes id ⟨B, A⟩).Old = (templateCompareEpisodes id ⟨A, B⟩).New ∧
    (templateCompareEpisodes id ⟨B, A⟩).New = (templateCompareEpisodes id ⟨A, B⟩).Old ∧
    ((templateCompareEpisodes id ⟨A, B⟩).WarningShort = "only_previous" →
      (templateCompareEpisodes id ⟨B, A⟩).WarningShort = "improvement") ∧
    ((templateCompareEpisodes id ⟨A, B⟩).WarningShort = "improvement" →
      (templateCompareEpisodes id ⟨B, A⟩).WarningShort = "only_previous") ∧
    ((templateCompareEpisodes id ⟨A, B⟩).WarningShort = "missing" →
      (templateCompareEpisodes id ⟨B, A⟩).WarningShort = "missing") ∧
    ((templateCompareEpisodes id ⟨A, B⟩).WarningShort = "different" →
      (templateCompareEpisodes id ⟨B, A⟩).WarningShort = "different") ∧
    ((templateCompareEpisodes id ⟨A, B⟩).WarningShort = "okay" →
      (templateCompareEpisodes id ⟨B, A⟩).WarningShort = "okay") := by
  unfold templateCompareEpisodes
  simp only []
  rw [similar_comm 5 (B.IntroMap.index id Intro.zero).IntroStart,
    similar_comm 5 (B.IntroMap.index id Intro.zero).IntroEnd]
  cases (A.IntroMap.index id Intro.zero).Valid <;>
  cases (B.IntroMap.index id Intro.zero).Valid <;>
  cases similar 5 (A.IntroMap.index id Intro.zero).IntroStart
    (B.IntroMap.index id Intro.zero).IntroStart <;>
  cases similar 5 (A.IntroMap.index id Intro.zero).IntroEnd
    (B.IntroMap.index id Intro.zero).IntroEnd <;>
  simp

/-- Witness of C18: 30/50 valid against an invalid record is `only_previous`, and
`improvement` with the collections exchanged; 30/50 against 40/50 is `different` both
ways. -/
theorem templateCompareEpisodes_swap_witness :
    (templateCompareEpisodes "e1" ⟨Report.ofIntroMap [Intro.sample "e1" 0 0 false],
        Report.ofIntroMap [Intro.sample "e1" 30 50 true]⟩).WarningShort = "improvement" ∧
    (templateCompareEpisodes "e1" ⟨Report.ofIntroMap [Intro.sample "e1" 40 50 true],
        Report.ofIntroMap [Intro.sample "e1" 30 50 true]⟩).WarningShort = "different" :=
  ⟨(templateCompareEpisodes_swap "e1" (Report.ofIntroMap [Intro.sample "e1" 30 50 true])
      (Report.ofIntroMap [Intro.sample "e1" 0 0 false])).2.2.1 (by decide),
   (templateCompareEpisodes_swap "e1" (Report.ofIntroMap [Intro.sample "e1" 30 50 true])
      (Report.ofIntroMap [Intro.sample "e1" 40 50 true])).2.2.2.2.2.1 (by decide)⟩

/-! ## Determinism of `validateV1Intro` -/

/-- Either the record checks of `validateV1Intro` fail, with a failure that does not depend
on the field mapping, or the outcome is that of the key loop. -/
theorem validateV1Intro_record_or_keys (id : String) (intro : Intro) :
    (∃ e, e.kind ≠ ErrorKind.UnknownField ∧
      ∀ (α : Type) (schema : GoMap String α), validateV1Intro id intro schema = .error e) ∨
    (∀ (α : Type) (schema : GoMap String α),
      validateV1Intro id intro schema = checkSchemaKeys schema.keys) := by
  unfold validateV1Intro
  by_cases h1 : intro.EpisodeId = id
  swap
  · exact Or.inl ⟨.incorrectItemId id intro.EpisodeId, by simp [ValidationFailure.kind],
      fun α schema => by simp [h1]⟩
  rcases Bool.eq_false_or_eq_true (Fp.lt intro.IntroStart (Fp.ofInt binary32 0)) with h2 | h2
  · exact Or.inl ⟨.negativeTime, by simp [ValidationFailure.kind],
      fun α schema => by simp [h1, h2]⟩
  rcases Bool.eq_false_or_eq_true (Fp.lt intro.IntroEnd (Fp.ofInt binary32 0)) with h3 | h3
  · exact Or.inl ⟨.negativeTime, by simp [ValidationFailure.kind],
      fun α schema => by simp [h1, h3]⟩
  rcases Bool.eq_false_or_eq_true (Fp.gt intro.ShowSkipPromptAt intro.IntroStart) with h4 | h4
  · exact Or.inl ⟨.showPromptAfterStart, by simp [ValidationFailure.kind],
      fun α schema => by simp [h1, h2, h3, h4]⟩
  rcases Bool.eq_false_or_eq_true (Fp.gt intro.HideSkipPromptAt intro.IntroEnd) with h5 | h5
  · exact Or.inl ⟨.hidePromptAfterEnd, by simp [ValidationFailure.kind],
      fun α schema => by simp [h1, h2, h3, h4, h5]⟩
  rcases Bool.eq_false_or_eq_true
    (Fp.lt (Fp.sub binary32 intro.IntroEnd intro.IntroStart) (Fp.ofInt binary32 15))
    with h6 | h6
  · exact Or.inl ⟨.durationTooShort (Fp.sub binary32 intro.IntroEnd intro.IntroStart),
      by simp [ValidationFailure.kind], fun α schema => by simp [h1, h2, h3, h4, h5, h6]⟩
  rcases Bool.eq_false_or_eq_true intro.Valid with h7 | h7
  swap
  · exact Or.inl ⟨.notValid, by simp [ValidationFailure.kind],
      fun α schema => by simp [h1, h2, h3, h4, h5, h6, h7]⟩
  exact Or.inr (fun α schema => by simp [h1, h2, h3, h4, h5, h6, h7])

/-- Counterexample to C11 as stated: the same accepted record and the same field mapping,
holding the two unknown keys `Foo` and `Bar`, visited in two orders as two runs over a Go map
can: one run fails naming `Foo`, the other naming `Bar`, with different messages. -/
theorem validateV1Intro_named_key_depends_on_visit :
    sampleSchemaFooBar.entries.Perm sampleSchemaBarFoo.entries ∧
    validateV1Intro "e1" (Intro.sampleV1 "e1" 10 25 5 20 true) sampleSchemaFooBar
      = .error (.unknownKey "Foo") ∧
    validateV1Intro "e1" (Intro.sampleV1 "e1" 10 25 5 20 true) sampleSchemaBarFoo
      = .error (.unknownKey "Bar") ∧
    validateV1Intro "e1" (Intro.sampleV1 "e1" 10 25 5 20 true) sampleSchemaFooBar
      ≠ validateV1Intro "e1" (Intro.sampleV1 "e1" 10 25 5 20 true) sampleSchemaBarFoo ∧
    (ValidationFailure.unknownKey "Foo").message ≠
      (ValidationFailure.unknownKey "Bar").message :=
  ⟨List.Perm.swap _ _ _, by decide, by decide, by decide, by decide⟩

/-- C11, amended. Two runs of `validateV1Intro` on the same input (the same identifier and
record, and the same field mapping, whose entries a run may visit in any order) give the
same outcome and, when they fail, failures of the same kind; the failures are equal, message
and named key included, whenever the failure is not UnknownField, the mapping has at most
one key outside the allowed set, or both runs visit the keys in the same order. With two or
more keys outside the allowed set each run names one of them, which one depends on the
order of the visit. -/
theorem validateV1Intro_deterministic_up_to_visit {α : Type} (id : String) (intro : Intro)
    (schema1 schema2 : GoMap String α) (hsame : schema1.entries.Perm schema2.entries) :
    (validateV1Intro id intro schema1 = .ok () ↔ validateV1Intro id intro schema2 = .ok ()) ∧
    (schema1.keys = schema2.keys →
      validateV1Intro id intro schema1 = validateV1Intro id intro schema2) ∧
    (∀ e1 e2, validateV1Intro id intro schema1 = .error e1 →
      validateV1Intro id intro schema2 = .error e2 →
      e1.kind = e2.kind ∧
      (e1.kind ≠ ErrorKind.UnknownField → e1 = e2 ∧ e1.message = e2.message) ∧
      ((∀ k1 ∈ schema1.keys, ∀ k2 ∈ schema1.keys,
          k1 ∉ allowedProperties → k2 ∉ allowedProperties → k1 = k2) →
        e1 = e2 ∧ e1.message = e2.message) ∧
      (∀ k, e2 = .unknownKey k → k ∈ schema1.keys ∧ k ∉ allowedProperties)) := by
  have hkeys : schema1.keys.Perm schema2.keys := hsame.map Prod.fst
  rcases validateV1Intro_record_or_keys id intro with ⟨e, hkind, he⟩ | hk
  · rw [he α schema1, he α schema2]
    refine ⟨by simp, fun _ => rfl, ?_⟩
    intro e1 e2 h1 h2
    cases h1
    cases h2
    refine ⟨rfl, fun _ => ⟨rfl, rfl⟩, fun _ => ⟨rfl, rfl⟩, ?_⟩
    intro k hk
    rw [hk] at hkind
    exact absurd rfl hkind
  · rw [hk α schema1, hk α schema2]
    refine ⟨?_, fun h => by rw [h], ?_⟩
    · rw [checkSchemaKeys_ok_iff, checkSchemaKeys_ok_iff]
      constructor
      · intro h k hk2
        exact h k (hkeys.mem_iff.mpr hk2)
      · intro h k hk1
        exact h k (hkeys.mem_iff.mp hk1)
    · intro e1 e2 h1 h2
      obtain ⟨k1, hk1, hf1⟩ := checkSchemaKeys_error _ _ h1
      obtain ⟨k2, hk2, hf2⟩ := checkSchemaKeys_error _ _ h2
      have m1 : k1 ∈ schema1.keys := List.mem_of_find?_eq_some hf1
      have m2 : k2 ∈ schema1.keys := hkeys.mem_iff.mpr (List.mem_of_find?_eq_some hf2)
      have n1 : k1 ∉ allowedProperties := by simpa using List.find?_some hf1
      have n2 : k2 ∉ allowedProperties := by simpa using List.find?_some hf2
      subst hk1
      subst hk2
      refine ⟨rfl, fun h => absurd rfl h, ?_, ?_⟩
      · intro huniq
        have := huniq k1 m1 k2 m2 n1 n2
        subst this
        exact ⟨rfl, rfl⟩
      · intro k hk
        cases hk
        exact ⟨m2, n2⟩

/-- Witness of C11, amended: for the mapping with the two unknown keys `Foo` and `Bar`, both
runs fail with UnknownField and the second names a key of the mapping that is not allowed;
for the mapping with the single unknown key `Foo`, visited in two orders, both runs fail
naming `Foo`. -/
theorem validateV1Intro_deterministic_up_to_visit_witness :
    (ValidationFailure.unknownKey "Foo").kind = (ValidationFailure.unknownKey "Bar").kind ∧
    ("Bar" ∈ sampleSchemaFooBar.keys ∧ "Bar" ∉ allowedProperties) ∧
    validateV1Intro "e1" (Intro.sampleV1 "e1" 10 25 5 20 true) sampleSchemaFoo =
      validateV1Intro "e1" (Intro.sampleV1 "e1" 10 25 5 20 true)
        (⟨sampleSchemaFoo.entries.reverse⟩ : GoMap String JsonValue) :=
  ⟨((validateV1Intro_deterministic_up_to_visit "e1" (Intro.sampleV1 "e1" 10 25 5 20 true)
      sampleSchemaFooBar sampleSchemaBarFoo (List.Perm.swap _ _ _)).2.2
      (.unknownKey "Foo") (.unknownKey "Bar") (by decide) (by decide)).1,
   ((validateV1Intro_deterministic_up_to_visit "e1" (Intro.sampleV1 "e1" 10 25 5 20 true)
      sampleSchemaFooBar sampleSchemaBarFoo (List.Perm.swap _ _ _)).2.2
      (.unknownKey "Foo") (.unknownKey "Bar") (by decide) (by decide)).2.2.2 "Bar" rfl,
   by decide⟩

/-! ## The derived fields of a loaded report -/

/-- A record stored in the lookup table of a loaded report is the loop's copy of an input
record with that identifier. -/
theorem unmarshalReport_IntroMap_stored (path : String) (decoded : Report) (k : String)
    (r : Intro) (h : (unmarshalReport path decoded).IntroMap.get? k = some r) :
    ∃ i ∈ decoded.Intros, i.EpisodeId = k ∧ r = i.indexed := by
  rw [(unmarshalReport_IntroMap path decoded k).2.1] at h
  cases hl : (decoded.Intros.filter (fun i => decide (i.EpisodeId = k))).getLast? with
  | none => simp [hl] at h
  | some i =>
    simp only [hl, Option.map_some', Option.some.injEq] at h
    have hmem := List.mem_of_getLast?_eq_some hl
    rw [List.mem_filter] at hmem
    exact ⟨i, hmem.1, by simpa using hmem.2, h.symm⟩

/-- A record stored in a bucket of the grouping map of a loaded report is the loop's copy of
an input record of that show and season. -/
theorem unmarshalReport_Shows_stored (path : String) (decoded : Report) (s : String)
    (n : Int) (r : Intro)
    (h : r ∈ ((unmarshalReport path decoded).Shows.index s GoMap.empty).index n []) :
    ∃ i ∈ decoded.Intros, i.Series = s ∧ i.Season = n ∧ r = i.indexed := by
  rw [(unmarshalReport_Shows path decoded s n).1, List.mem_map] at h
  obtain ⟨i, hi, rfl⟩ := h
  rw [List.mem_filter] at hi
  have hk : i.Series = s ∧ i.Season = n := by simpa using hi.2
  exact ⟨i, hi.1, hk.1, hk.2, rfl⟩

/-- The indexing loop leaves the record list of the report as it was decoded. -/
theorem foldl_indexStep_Intros (l : List Intro) :
    ∀ r : Report, (l.foldl indexStep r).Intros = r.Intros := by
  induction l with
  | nil =>
    intro r
    rfl
  | cons i l ih =>
    intro r
    rw [List.foldl_cons, ih]
    rfl

/-- Counterexample to C12 as stated: the record decoded with the duration 20.5 is stored in
the lookup table and in its season bucket with the duration 21. -/
theorem unmarshalReport_stored_Duration_not_original :
    ((unmarshalReport "r.json"
        { Report.blank with Intros := [Intro.sampleFractional] }).IntroMap.get? "a").map
      (fun r => r.Duration) = some (Fp.ofInt binary32 21) ∧
    (((unmarshalReport "r.json"
        { Report.blank with Intros := [Intro.sampleFractional] }).Shows.index "S"
          GoMap.empty).index 1 []).map (fun r => r.Duration) = [Fp.ofInt binary32 21] ∧
    Intro.sampleFractional.Duration.toRat = 41 / 2 ∧
    (Fp.ofInt binary32 21).toRat = 21 ∧
    Fp.eq (Fp.ofInt binary32 21) Intro.sampleFractional.Duration = false := by
  refine ⟨by decide, by decide, ?_, ?_, by decide⟩
  · simp only [Intro.sampleFractional, Fp.toRat]
    norm_num
  · have h : Fp.ofInt binary32 21 = .fin false 11010048 (-19) := by decide
    rw [h]
    simp only [Fp.toRat]
    norm_num

/-- C12, amended. For every record of a collection loaded by `unmarshalReport`, the
`Duration` of the record stored in the lookup table and in the grouping map is the
`Duration` of the input record rounded to a whole number of seconds, the value
`float32(math.Round(float64(Duration)))`; the original precision is kept only in the record
list `Intros`, which is left as decoded. -/
theorem unmarshalReport_stored_Duration (path : String) (decoded : Report) :
    (∀ (k : String) (r : Intro), (unmarshalReport path decoded).IntroMap.get? k = some r →
      ∃ i ∈ decoded.Intros, i.EpisodeId = k ∧ r = i.indexed ∧
        r.Duration = Fp.toFloat32 (Fp.mathRound (Fp.toFloat64 i.Duration))) ∧
    (∀ (s : String) (n : Int) (r : Intro),
      r ∈ ((unmarshalReport path decoded).Shows.index s GoMap.empty).index n [] →
      ∃ i ∈ decoded.Intros, i.Series = s ∧ i.Season = n ∧ r = i.indexed ∧
        r.Duration = Fp.toFloat32 (Fp.mathRound (Fp.toFloat64 i.Duration))) ∧
    (unmarshalReport path decoded).Intros = decoded.Intros := by
  refine ⟨?_, ?_, ?_⟩
  · intro k r h
    obtain ⟨i, hi, hk, rfl⟩ := unmarshalReport_IntroMap_stored path decoded k r h
    exact ⟨i, hi, hk, rfl, rfl⟩
  · intro s n r h
    obtain ⟨i, hi, hs, hn, rfl⟩ := unmarshalReport_Shows_stored path decoded s n r h
    exact ⟨i, hi, hs, hn, rfl, rfl⟩
  · unfold unmarshalReport
    simp only []
    rw [foldl_indexStep_Intros]

/-- Witness of C12, amended: the record decoded with the duration 20.5 is stored with the
duration `float32(math.Round(20.5)) = 21`, and the record list keeps 20.5. -/
theorem unmarshalReport_stored_Duration_witness :
    (∃ i ∈ [Intro.sampleFractional], i.EpisodeId = "a" ∧
      Intro.sampleFractional.indexed = i.indexed ∧
      Intro.sampleFractional.indexed.Duration =
        Fp.toFloat32 (Fp.mathRound (Fp.toFloat64 i.Duration))) ∧
    Fp.toFloat32 (Fp.mathRound (Fp.toFloat64 Intro.sampleFractional.Duration)) =
      Fp.ofInt binary32 21 ∧
    (unmarshalReport "r.json" { Report.blank with Intros := [Intro.sampleFractional] }).Intros
      = [Intro.sampleFractional] :=
  ⟨(unmarshalReport_stored_Duration "r.json"
      { Report.blank with Intros := [Intro.sampleFractional] }).1 "a"
      Intro.sampleFractional.indexed (by decide),
   by decide,
   (unmarshalReport_stored_Duration "r.json"
      { Report.blank with Intros := [Intro.sampleFractional] }).2.2⟩

/-- The fraction loop of `time` writes nothing for a whole multiple of `10^prec`. -/
theorem fmtFrac_whole (prec : Nat) :
    ∀ n : Nat, fmtFrac prec (n * 10 ^ prec) false [] = ([], n) := by
  induction prec with
  | zero =>
    intro n
    simp [fmtFrac]
  | succ prec ih =>
    intro n
    have h1 : n * 10 ^ (prec + 1) % 10 = 0 := by
      rw [Nat.pow_succ, ← Nat.mul_assoc]
      exact Nat.mul_mod_left _ _
    have h2 : n * 10 ^ (prec + 1) / 10 = n * 10 ^ prec := by
      rw [Nat.pow_succ, ← Nat.mul_assoc]
      exact Nat.mul_div_cancel _ (by decide)
    unfold fmtFrac
    simp only [h1, h2]
    exact ih n

/-- A duration of `n` whole seconds is printed in the hours-minutes-seconds notation. -/
theorem durationString_whole_seconds (n : Nat) :
    durationString ((n : Int) * 1000000000) = secondsNotation n := by
  have hfrac : fmtFrac 9 (n * 1000000000) false [] = ([], n) := fmtFrac_whole 9 n
  have habs : ((n : Int) * 1000000000).natAbs = n * 1000000000 := by
    rw [Int.natAbs_mul]
    rfl
  have hneg : ¬ ((n : Int) * 1000000000 < 0) := by omega
  unfold durationString secondsNotation
  simp only [habs, hneg, if_false]
  by_cases h0 : n = 0
  · subst h0
    decide
  · have hbig : ¬ n * 1000000000 < 1000000000 := by omega
    simp only [hbig, if_false, hfrac]
    have hmk : String.mk ([] : List Char) = "" := rfl
    simp only [hmk, String.append_empty, String.empty_append]
    by_cases h60 : n < 60
    · have hm : ¬ 0 < n / 60 := by omega
      have hmod : n % 60 = n := Nat.mod_eq_of_lt h60
      simp only [hm, h60, if_false, if_true, hmod]
    · have hm : 0 < n / 60 := by omega
      simp only [hm, h60, if_false, if_true]
      by_cases h3600 : n < 3600
      · have hh : ¬ 0 < n / 60 / 60 := by omega
        have hmod : n / 60 % 60 = n / 60 := Nat.mod_eq_of_lt (by omega)
        simp only [hh, h3600, if_false, if_true, hmod, String.append_assoc]
      · have hdiv : n / 60 / 60 = n / 3600 := by omega
        have hh : 0 < n / 3600 := by omega
        simp only [hdiv, hh, h3600, if_false, if_true, String.append_assoc]

/-- Converting a non-negative finite float in the `int64` range truncates it: the result is
the largest integer not above the value. -/
theorem Fp.toInt64_eq_floor (x : Fp) (hfin : x.isFinite = true) (h0 : 0 ≤ x.toRat)
    (hlt : x.toRat < 2 ^ 63) : Fp.toInt64 x = ⌊x.toRat⌋ := by
  cases x with
  | nan => simp [Fp.isFinite] at hfin
  | inf s => simp [Fp.isFinite] at hfin
  | fin s m e =>
    have hval : (Fp.fin s m e).toRat = (m : ℚ) * (2 : ℚ) ^ e := by
      cases s with
      | false => simp [Fp.toRat]
      | true =>
        have hpos : (0 : ℚ) < (2 : ℚ) ^ e := zpow_pos (by norm_num) _
        have hm : (m : ℚ) = 0 := by
          simp only [Fp.toRat, if_true] at h0
          have : (m : ℚ) * (2 : ℚ) ^ e ≤ 0 := by linarith
          have h3 : (0 : ℚ) ≤ (m : ℚ) := Nat.cast_nonneg m
          nlinarith
        simp [Fp.toRat, hm]
    have hmag : ((if 0 ≤ e then m * 2 ^ e.toNat else m / 2 ^ (-e).toNat : Nat) : Int) =
        ⌊(m : ℚ) * (2 : ℚ) ^ e⌋ := by
      by_cases he : 0 ≤ e
      · simp only [he, if_true]
        have : (2 : ℚ) ^ e = ((2 ^ e.toNat : Nat) : ℚ) := by
          rw [Nat.cast_pow, ← zpow_natCast]
          congr 1
          omega
        rw [this, ← Nat.cast_mul]
        exact (Int.floor_natCast _).symm
      · simp only [he, if_false]
        have : (2 : ℚ) ^ e = (((2 ^ (-e).toNat : Nat) : ℚ))⁻¹ := by
          rw [Nat.cast_pow, ← zpow_natCast, ← zpow_neg]
          congr 1
          omega
        rw [this, ← div_eq_mul_inv]
        exact (Rat.floor_intCast_div_natCast (m : Int) _).symm
    rw [hval] at h0 hlt ⊢
    have hfl0 : 0 ≤ ⌊(m : ℚ) * (2 : ℚ) ^ e⌋ := Int.floor_nonneg.mpr h0
    have hfl1 : ⌊(m : ℚ) * (2 : ℚ) ^ e⌋ < 2 ^ 63 := by
      have := Int.floor_le ((m : ℚ) * (2 : ℚ) ^ e)
      have h2 : ((⌊(m : ℚ) * (2 : ℚ) ^ e⌋ : Int) : ℚ) < ((2 ^ 63 : Int) : ℚ) := by
        push_cast
        linarith
      exact_mod_cast h2
    unfold Fp.toInt64
    simp only []
    rw [hmag]
    cases s with
    | false =>
      simp only [Bool.false_eq_true, if_false]
      rw [if_pos ⟨by omega, hfl1⟩]
    | true =>
      have hz : ⌊(m : ℚ) * (2 : ℚ) ^ e⌋ = 0 := by
        have hpos : (0 : ℚ) < (2 : ℚ) ^ e := zpow_pos (by norm_num) _
        have hm : (m : ℚ) = 0 := by
          have hx : 0 ≤ (Fp.fin true m e).toRat := by rw [hval]; exact h0
          simp only [Fp.toRat, if_true] at hx
          have : (m : ℚ) * (2 : ℚ) ^ e ≤ 0 := by linarith
          have h3 : (0 : ℚ) ≤ (m : ℚ) := Nat.cast_nonneg m
          nlinarith
        simp [hm]
      simp only [if_true, hz]
      decide

/-- A printable timestamp is printed as the notation of its whole seconds, the fraction
dropped. -/
theorem formatSeconds_truncates (x : Fp) (h : x.printableSeconds) :
    formatSeconds x = secondsNotation ⌊x.toRat⌋.toNat := by
  obtain ⟨hfin, h0, hlt⟩ := h
  have hconv := Fp.toInt64_eq_floor x hfin h0 (by linarith)
  have hfl0 : 0 ≤ ⌊x.toRat⌋ := Int.floor_nonneg.mpr h0
  have hfl1 : ⌊x.toRat⌋ < 9223372037 := by
    have := Int.floor_le x.toRat
    have h2 : ((⌊x.toRat⌋ : Int) : ℚ) < ((9223372037 : Int) : ℚ) := by
      push_cast
      linarith
    exact_mod_cast h2
  have hnat : ((⌊x.toRat⌋.toNat : Nat) : Int) = ⌊x.toRat⌋ := Int.toNat_of_nonneg hfl0
  unfold formatSeconds
  rw [hconv]
  have hwrap : wrapInt64 (⌊x.toRat⌋ * 1000000000) = ⌊x.toRat⌋ * 1000000000 := by
    unfold wrapInt64
    omega
  rw [hwrap, ← hnat, durationString_whole_seconds, hnat]

/-- The loop's copy of a record has the display strings described by
`Intro.formattedTruncated`. -/
theorem Intro.indexed_formattedTruncated (i : Intro) : i.indexed.formattedTruncated :=
  ⟨rfl, rfl, fun h => formatSeconds_truncates _ h, fun h => formatSeconds_truncates _ h⟩

/-- The sample start time is the rational `4305715 / 65536 = 65.69999694...`. -/
theorem sampleFractional_start_value :
    Intro.sampleFractional.IntroStart.toRat = 4305715 / 65536 := by
  simp only [Intro.sampleFractional, Fp.sample65_7, Fp.toRat]
  norm_num

/-- The sample start time is printable. -/
theorem sampleFractional_start_printable :
    Intro.sampleFractional.IntroStart.printableSeconds := by
  refine ⟨by decide, ?_, ?_⟩
  · rw [sampleFractional_start_value]
    norm_num
  · rw [sampleFractional_start_value]
    norm_num

/-- Counterexample to C13 as stated: the loaded record that starts at 65.7 s (the `float32`
nearest to 65.7, which lies between 65.5 and 66) gets the start string "1m5s", the notation
of 65 s, while the notation of 66 s, the nearest whole second, is "1m6s". Besides, a start
of `10^10` s, whose nanosecond count does not fit `int64`, is printed as a negative
duration. -/
theorem unmarshalReport_FormattedStart_not_nearest :
    ((unmarshalReport "r.json"
        { Report.blank with Intros := [Intro.sampleFractional] }).IntroMap.get? "a").map
      (fun r => r.FormattedStart) = some "1m5s" ∧
    (((unmarshalReport "r.json"
        { Report.blank with Intros := [Intro.sampleFractional] }).Shows.index "S"
          GoMap.empty).index 1 []).map (fun r => r.FormattedStart) = ["1m5s"] ∧
    Intro.sampleFractional.IntroStart.printableSeconds ∧
    |Intro.sampleFractional.IntroStart.toRat - 657 / 10| < 1 / 100000 ∧
    |Intro.sampleFractional.IntroStart.toRat - 66| < 1 / 2 ∧
    secondsNotation 66 = "1m6s" ∧
    durationString (66 * 1000000000) = "1m6s" ∧
    secondsNotation 65 = "1m5s" ∧
    (Intro.sample "b" 10000000000 10000000020 true).indexed.FormattedStart =
      "-2346317h47m53.709551616s" := by
  have hv := sampleFractional_start_value
  refine ⟨by decide, by decide, sampleFractional_start_printable, ?_, ?_, by decide,
    by decide, by decide, by decide⟩
  · rw [hv, abs_lt]
    constructor <;> norm_num
  · rw [hv, abs_lt]
    constructor <;> norm_num

/-- C13, amended. For every record loaded by `unmarshalReport`, in the lookup table or in a
season bucket, `FormattedStart` and `FormattedEnd` are functions of `IntroStart` and of
`IntroEnd` alone, and for a non-negative start or end (below 9223372037 s) they are the
hours-minutes-seconds notation of that time truncated, not rounded, to whole seconds: 65 s
and 65.7 s both render as "1m5s". -/
theorem unmarshalReport_Formatted (path : String) (decoded : Report) :
    (∀ (k : String) (r : Intro), (unmarshalReport path decoded).IntroMap.get? k = some r →
      r.formattedTruncated) ∧
    (∀ (s : String) (n : Int) (r : Intro),
      r ∈ ((unmarshalReport path decoded).Shows.index s GoMap.empty).index n [] →
      r.formattedTruncated) := by
  constructor
  · intro k r h
    obtain ⟨i, _, _, rfl⟩ := unmarshalReport_IntroMap_stored path decoded k r h
    exact Intro.indexed_formattedTruncated i
  · intro s n r h
    obtain ⟨i, _, _, _, rfl⟩ := unmarshalReport_Shows_stored path decoded s n r h
    exact Intro.indexed_formattedTruncated i

/-- Witness of C13, amended: the loaded record that starts at 65.7 s has the start string
`secondsNotation 65`, which is "1m5s", and a record that starts at 65 s has it too. -/
theorem unmarshalReport_Formatted_witness :
    Intro.sampleFractional.indexed.FormattedStart =
      secondsNotation ⌊Intro.sampleFractional.indexed.IntroStart.toRat⌋.toNat ∧
    Intro.sampleFractional.indexed.FormattedStart = "1m5s" ∧
    (Intro.sampleEpisode "a" "S" 1).indexed.FormattedStart = "1m5s" :=
  ⟨((unmarshalReport_Formatted "r.json"
      { Report.blank with Intros := [Intro.sampleFractional] }).1 "a"
      Intro.sampleFractional.indexed (by decide)).2.2.1 sampleFractional_start_printable,
   by decide, by decide⟩

/-! ## Redaction of command lines -/

/-- Joining a list that starts with `a`. -/
theorem joinChars_cons (sep a : List Char) (l : List (List Char)) :
    joinChars sep (a :: l) = a ++ (if l = [] then [] else sep ++ joinChars sep l) := by
  cases l with
  | nil => simp [joinChars]
  | cons b rest => simp [joinChars]

/-- No match of the redaction regexp starts at a character other than the hyphen. -/
theorem matchRedaction_none_of_ne (c : Char) (cs : List Char) (h : c ≠ '-') :
    matchRedaction (c :: cs) = none := by
  unfold matchRedaction
  split
  · rename_i heq
    simp only [List.cons.injEq] at heq
    exact absurd heq.1 h
  · rfl

/-- Text without hyphens is copied by the scan. -/
theorem redactChars_copy (s t : List Char) (h : '-' ∉ s) :
    redactChars 0 (s ++ t) = s ++ redactChars 0 t := by
  induction s with
  | nil => rfl
  | cons c s ih =>
    have hc : c ≠ '-' := fun e => h (by simp [e])
    have hs : '-' ∉ s := fun e => h (by simp [e])
    simp only [List.cons_append]
    rw [redactChars]
    simp only [matchRedaction_none_of_ne c _ hc]
    rw [ih hs]

/-- The scan passes over the rest of a match. -/
theorem redactChars_skip (s t : List Char) :
    redactChars s.length (s ++ t) = redactChars 0 t := by
  induction s with
  | nil => rfl
  | cons c s ih => simpa [redactChars] using ih

/-- The longest run of class characters at the head of a value followed by nothing or by a
space is the value. -/
theorem takeWhile_value (value rest : List Char) (hv : ∀ c ∈ value, classNotSpace c = true)
    (hrest : rest = [] ∨ ∃ r, rest = ' ' :: r) :
    (value ++ rest).takeWhile classNotSpace = value := by
  induction value with
  | nil =>
    rcases hrest with h | ⟨r, h⟩
    · simp [h]
    · simp [h, classNotSpace]
  | cons c value ih =>
    have hc := hv c (by simp)
    simp only [List.cons_append, List.takeWhile_cons, hc, if_true]
    rw [ih (fun c hc => hv c (by simp [hc]))]

/-- An alternative followed by a space and a value of class characters matches up to the
end of the value. -/
theorem matchAlternative_self (name value rest : List Char) (hne : value ≠ [])
    (hv : ∀ c ∈ value, classNotSpace c = true)
    (hrest : rest = [] ∨ ∃ r, rest = ' ' :: r) :
    matchAlternative name (name ++ ' ' :: (value ++ rest)) =
      some (name, 1 + name.length + 1 + value.length) := by
  have htw := takeWhile_value value rest hv hrest
  have htake : (name ++ ' ' :: (value ++ rest)).take (name.length + 1) = name ++ [' '] := by
    rw [List.take_append_eq_append_take]
    simp
  have hdrop : (name ++ ' ' :: (value ++ rest)).drop (name.length + 1) = value ++ rest := by
    rw [List.drop_append_eq_append_drop]
    simp
  unfold matchAlternative
  simp only [htake, hdrop, htw, hne, if_true, if_false]

/-- Two names without spaces, each followed by a space, that agree as far as the second
reaches are equal. -/
theorem eq_of_take_space (a : List Char) :
    ∀ (b rest : List Char), ' ' ∉ a → ' ' ∉ b →
      (a ++ ' ' :: rest).take (b.length + 1) = b ++ [' '] → a = b := by
  induction a with
  | nil =>
    intro b rest _ hb h
    cases b with
    | nil => rfl
    | cons c b =>
      simp only [List.nil_append, List.length_cons, List.take_succ_cons, List.cons_append,
        List.cons.injEq] at h
      exact absurd (by simp [← h.1]) hb
  | cons x a ih =>
    intro b rest ha hb h
    cases b with
    | nil =>
      simp only [List.cons_append, List.length_nil, Nat.zero_add, List.take_succ_cons,
        List.take_zero, List.nil_append, List.cons.injEq, and_true] at h
      exact absurd (by simp [h]) ha
    | cons c b =>
      simp only [List.cons_append, List.length_cons, List.take_succ_cons,
        List.cons.injEq] at h
      have := ih b rest (fun e => ha (by simp [e])) (fun e => hb (by simp [e])) h.2
      rw [h.1, this]

/-- An alternative does not match at another name followed by a space. -/
theorem matchAlternative_other (n name rest : List Char) (hne : name ≠ n)
    (hsp : ' ' ∉ name) (hnsp : ' ' ∉ n) :
    matchAlternative n (name ++ ' ' :: rest) = none := by
  unfold matchAlternative
  have h : ¬ (name ++ ' ' :: rest).take (n.length + 1) = n ++ [' '] :=
    fun h => hne (eq_of_take_space name n rest hsp hnsp h)
  simp only [h, if_false]

/-- The alternatives of the group contain no space. -/
theorem sensitiveNames_no_space (n : List Char) (hn : n ∈ sensitiveNames) : ' ' ∉ n := by
  simp only [sensitiveNames, List.mem_cons, List.mem_singleton, List.not_mem_nil,
    or_false] at hn
  rcases hn with rfl | rfl | rfl <;> decide

/-- At a sensitive flag followed by a value of class characters the regexp matches the flag,
the space and the whole value. -/
theorem matchRedaction_sensitive (name value rest : List Char)
    (hname : name ∈ sensitiveNames) (hne : value ≠ [])
    (hv : ∀ c ∈ value, classNotSpace c = true)
    (hrest : rest = [] ∨ ∃ r, rest = ' ' :: r) :
    matchRedaction ('-' :: (name ++ ' ' :: (value ++ rest))) =
      some (name, 1 + name.length + 1 + value.length) := by
  have hself := matchAlternative_self name value rest hne hv hrest
  have hsp := sensitiveNames_no_space name hname
  have hother : ∀ n ∈ sensitiveNames, n ≠ name →
      matchAlternative n (name ++ ' ' :: (value ++ rest)) = none :=
    fun n hn hneq => matchAlternative_other n name _ (fun e => hneq e.symm) hsp
      (sensitiveNames_no_space n hn)
  unfold matchRedaction
  simp only [sensitiveNames, List.mem_cons, List.mem_singleton, List.not_mem_nil,
    or_false] at hname hother
  rcases hname with rfl | rfl | rfl
  · simp only [List.cons_append, List.nil_append] at hself
    simp [sensitiveNames, hself]
  · have h1 := hother ['u', 's', 'e', 'r'] (Or.inl rfl) (by decide)
    simp only [List.cons_append, List.nil_append] at hself h1
    simp [sensitiveNames, hself, h1]
  · have h1 := hother ['u', 's', 'e', 'r'] (Or.inl rfl) (by decide)
    have h2 := hother ['p', 'a', 's', 's'] (Or.inr (Or.inl rfl)) (by decide)
    simp only [List.cons_append, List.nil_append] at hself h1 h2
    simp [sensitiveNames, hself, h1, h2]

/-- At a flag that is none of `-user`, `-pass`, `-key` the regexp does not match. -/
theorem matchRedaction_other (name rest : List Char) (hname : name ∉ sensitiveNames)
    (hsp : ' ' ∉ name) : matchRedaction ('-' :: (name ++ ' ' :: rest)) = none := by
  unfold matchRedaction
  simp only [List.head?_eq_none_iff, List.filterMap_eq_nil_iff]
  intro n hn
  exact matchAlternative_other n name rest (fun e => hname (e ▸ hn)) hsp
    (sensitiveNames_no_space n hn)

/-- The scan over one (flag, value) pair followed by nothing or by a space: the flag is
copied, and the value is copied unless the flag is `-user`, `-pass` or `-key` and the value
consists of class characters, in which case it is replaced. -/
theorem redactChars_pair (name value rest : List Char)
    (hsp : ' ' ∉ name) (hhy : '-' ∉ name) (hne : value ≠ []) (hvhy : '-' ∉ value)
    (hv : name ∈ sensitiveNames → ∀ c ∈ value, classNotSpace c = true)
    (hrest : rest = [] ∨ ∃ r, rest = ' ' :: r) :
    redactChars 0 ('-' :: (name ++ ' ' :: (value ++ rest))) =
      '-' :: (name ++ ' ' ::
        ((if name ∈ sensitiveNames then ['R', 'E', 'D', 'A', 'C', 'T', 'E', 'D'] else value)
          ++ redactChars 0 rest)) := by
  by_cases hs : name ∈ sensitiveNames
  · have hm := matchRedaction_sensitive name value rest hs hne (hv hs) hrest
    rw [redactChars]
    simp only [hm, hs, if_true]
    have hlen : 1 + name.length + 1 + value.length - 1 = (name ++ ' ' :: value).length := by
      simp only [List.length_append, List.length_cons]
      omega
    have happ : name ++ ' ' :: (value ++ rest) = (name ++ ' ' :: value) ++ rest := by simp
    rw [hlen, happ, redactChars_skip]
    simp
  · have hm := matchRedaction_other name (value ++ rest) hs hsp
    rw [redactChars]
    simp only [hm, hs, if_false]
    have happ : name ++ ' ' :: (value ++ rest) = (name ++ ' ' :: value) ++ rest := by simp
    have hno : '-' ∉ name ++ ' ' :: value := by
      simp only [List.mem_append, List.mem_cons, not_or]
      exact ⟨hhy, by decide, hvhy⟩
    rw [happ, redactChars_copy _ _ hno]
    simp

/-- Joining a list that starts with the two elements of a pair. -/
theorem joinChars_pair (a b : List Char) (l : List (List Char)) :
    joinChars [' '] (a :: b :: l) =
      a ++ ' ' :: (b ++ (if l = [] then [] else ' ' :: joinChars [' '] l)) := by
  rw [joinChars_cons, joinChars_cons]
  simp

/-- The redaction of a command line of well-shaped (flag, value) pairs whose sensitive
values contain no line feed is the command line with each sensitive value replaced. -/
theorem redactString_pairs (pairs : List (String × String))
    (hshape : ∀ p ∈ pairs, flagValueShaped p)
    (hline : ∀ p ∈ pairs, p.1 = "-user" ∨ p.1 = "-pass" ∨ p.1 = "-key" → '\n' ∉ p.2.data) :
    redactString (joinedPairs pairs) = redactedPairs pairs := by
  unfold redactString joinedPairs redactedPairs stringsJoin
  simp only [List.map_flatMap, List.map_cons, List.map_nil]
  congr 1
  induction pairs with
  | nil => rfl
  | cons p ps ih =>
    have ihp := ih (fun q hq => hshape q (by simp [hq])) (fun q hq => hline q (by simp [hq]))
    obtain ⟨⟨name, hflag, hnne, hnsp, hnhy⟩, hvne, hvsp, hvhy⟩ := hshape p (by simp)
    simp only [List.flatMap_cons, List.cons_append, List.nil_append]
    rw [joinChars_pair, joinChars_pair, hflag]
    simp only [List.cons_append]
    have hsens : (p.1 = "-user" ∨ p.1 = "-pass" ∨ p.1 = "-key") ↔ name ∈ sensitiveNames := by
      simp only [String.ext_iff, hflag, sensitiveNames, List.mem_cons, List.mem_singleton,
        List.not_mem_nil, or_false]
      constructor
      · rintro (h | h | h)
        · exact Or.inl (by simpa using h)
        · exact Or.inr (Or.inl (by simpa using h))
        · exact Or.inr (Or.inr (by simpa using h))
      · rintro (h | h | h)
        · exact Or.inl (by simp [h])
        · exact Or.inr (Or.inl (by simp [h]))
        · exact Or.inr (Or.inr (by simp [h]))
    have hclass : name ∈ sensitiveNames → ∀ c ∈ p.2.data, classNotSpace c = true := by
      intro hs c hc
      have hnl := hline p (by simp) (hsens.mpr hs)
      have h1 : c ≠ ' ' := fun e => hvsp (e ▸ hc)
      have h2 : c ≠ '\n' := fun e => hnl (e ▸ hc)
      simp [classNotSpace, h1, h2]
    have hempty : (ps.flatMap (fun p => [p.1.data, p.2.data]) = []) ↔
        (ps.flatMap (fun p => [p.1.data,
          (if p.1 = "-user" ∨ p.1 = "-pass" ∨ p.1 = "-key" then "REDACTED" else p.2).data])
          = []) := by
      cases ps <;> simp
    by_cases hps : ps.flatMap (fun p => [p.1.data, p.2.data]) = []
    · have hps2 := hempty.mp hps
      simp only [hps, hps2, if_true]
      rw [redactChars_pair name p.2.data [] hnsp hnhy hvne hvhy hclass (Or.inl rfl)]
      by_cases hs : name ∈ sensitiveNames
      · simp [hs, hsens.mpr hs, redactChars]
      · have hs2 : ¬ (p.1 = "-user" ∨ p.1 = "-pass" ∨ p.1 = "-key") := fun h => hs (hsens.mp h)
        simp [hs, hs2, redactChars]
    · have hps2 : ¬ _ := fun h => hps (hempty.mpr h)
      simp only [hps, hps2, if_false]
      rw [redactChars_pair name p.2.data _ hnsp hnhy hvne hvhy hclass (Or.inr ⟨_, rfl⟩)]
      have hspace : redactChars 0
          (' ' :: joinChars [' '] (ps.flatMap (fun p => [p.1.data, p.2.data]))) =
          ' ' :: redactChars 0
            (joinChars [' '] (ps.flatMap (fun p => [p.1.data, p.2.data]))) := by
        rw [redactChars]
        simp only [matchRedaction_none_of_ne ' ' _ (by decide)]
      rw [hspace, ihp]
      by_cases hs : name ∈ sensitiveNames
      · simp [hs, hsens.mpr hs]
      · have hs2 : ¬ (p.1 = "-user" ∨ p.1 = "-pass" ∨ p.1 = "-key") := fun h => hs (hsens.mp h)
        simp [hs, hs2]

/-- C16, the code at the failing input. The pair (`-pass`, `hunter2` line feed `hunter3`)
has the shape the claim asks for (no space and no hyphen in name and value), the claim's
result for it is `-pass REDACTED`, and `redactString` returns `-pass REDACTED` followed by
the line feed and `hunter3`: the class `[^ ]` of a POSIX-compiled regexp stops at the line
feed, so the rest of the value stays in the clear. On the input of `TestStringRedaction`
the function returns what the test expects. -/
theorem redactString_line_feed_leaks :
    flagValueShaped ("-pass", "hunter2\nhunter3") ∧
    joinedPairs [("-pass", "hunter2\nhunter3")] = "-pass hunter2\nhunter3" ∧
    redactedPairs [("-pass", "hunter2\nhunter3")] = "-pass REDACTED" ∧
    redactString (joinedPairs [("-pass", "hunter2\nhunter3")]) = "-pass REDACTED\nhunter3" ∧
    redactString (joinedPairs [("-pass", "hunter2\nhunter3")]) ≠
      redactedPairs [("-pass", "hunter2\nhunter3")] ∧
    redactString "-key deadbeef -first second -user admin -third fourth -pass hunter2" =
      "-key REDACTED -first second -user REDACTED -third fourth -pass REDACTED" :=
  ⟨⟨⟨['p', 'a', 's', 's'], rfl, by decide, by decide, by decide⟩,
      by decide, by decide, by decide⟩,
    by decide, by decide, by decide, by decide, by decide⟩

end IntroSkipper
